import Mathlib

/-!
Verification development for the demographics backend's ingestion pipeline
(`app/services/data_processor.py`) and job scheduler
(`app/services/scheduler.py`).

The Python code is shallowly embedded: JSON values become an inductive type
(numeric literals are modelled as integers), the filesystem staging/archive
directories and the SQLite table become explicit state records, wall-clock
time is passed as an explicit parameter, and code that can raise returns
`Except`.
-/

namespace Demographics

/-- JSON values as produced by `json.load`. Numeric literals are modelled as
integers; object fields keep insertion order, as Python dicts do. -/
inductive Json where
  | null : Json
  | bool : Bool → Json
  | num : Int → Json
  | str : String → Json
  | arr : List Json → Json
  | obj : List (String × Json) → Json

mutual

/-- Structural equality on JSON values (boilerplate: the nested inductive
does not support `deriving DecidableEq` in this Lean version). -/
def Json.beq : Json → Json → Bool
  | .null, .null => true
  | .bool a, .bool b => a == b
  | .num a, .num b => a == b
  | .str a, .str b => a == b
  | .arr a, .arr b => Json.beqList a b
  | .obj a, .obj b => Json.beqObj a b
  | _, _ => false

def Json.beqList : List Json → List Json → Bool
  | [], [] => true
  | x :: xs, y :: ys => Json.beq x y && Json.beqList xs ys
  | _, _ => false

def Json.beqObj : List (String × Json) → List (String × Json) → Bool
  | [], [] => true
  | (k1, v1) :: xs, (k2, v2) :: ys => k1 == k2 && Json.beq v1 v2 && Json.beqObj xs ys
  | _, _ => false

end

instance : BEq Json := ⟨Json.beq⟩

mutual

theorem Json.beq_refl : ∀ j : Json, Json.beq j j = true
  | .null => rfl
  | .bool a => by simp [Json.beq]
  | .num a => by simp [Json.beq]
  | .str a => by simp [Json.beq]
  | .arr l => by simp only [Json.beq]; exact Json.beqList_refl l
  | .obj l => by simp only [Json.beq]; exact Json.beqObj_refl l

theorem Json.beqList_refl : ∀ l : List Json, Json.beqList l l = true
  | [] => rfl
  | x :: xs => by
      simp only [Json.beqList, Bool.and_eq_true]
      exact ⟨Json.beq_refl x, Json.beqList_refl xs⟩

theorem Json.beqObj_refl : ∀ l : List (String × Json), Json.beqObj l l = true
  | [] => rfl
  | (k, v) :: xs => by
      simp only [Json.beqObj, Bool.and_eq_true]
      exact ⟨⟨by simp, Json.beq_refl v⟩, Json.beqObj_refl xs⟩

end

mutual

theorem Json.eq_of_beq : ∀ {a b : Json}, Json.beq a b = true → a = b
  | .null, .null, _ => rfl
  | .bool a, .bool b, h => by simp [Json.beq] at h; simp [h]
  | .num a, .num b, h => by simp [Json.beq] at h; simp [h]
  | .str a, .str b, h => by simp [Json.beq] at h; simp [h]
  | .arr a, .arr b, h => by
      simp only [Json.beq] at h
      exact congrArg Json.arr (Json.eqList_of_beq h)
  | .obj a, .obj b, h => by
      simp only [Json.beq] at h
      exact congrArg Json.obj (Json.eqObj_of_beq h)
  | .null, .bool _, h => by simp [Json.beq] at h
  | .null, .num _, h => by simp [Json.beq] at h
  | .null, .str _, h => by simp [Json.beq] at h
  | .null, .arr _, h => by simp [Json.beq] at h
  | .null, .obj _, h => by simp [Json.beq] at h
  | .bool _, .null, h => by simp [Json.beq] at h
  | .bool _, .num _, h => by simp [Json.beq] at h
  | .bool _, .str _, h => by simp [Json.beq] at h
  | .bool _, .arr _, h => by simp [Json.beq] at h
  | .bool _, .obj _, h => by simp [Json.beq] at h
  | .num _, .null, h => by simp [Json.beq] at h
  | .num _, .bool _, h => by simp [Json.beq] at h
  | .num _, .str _, h => by simp [Json.beq] at h
  | .num _, .arr _, h => by simp [Json.beq] at h
  | .num _, .obj _, h => by simp [Json.beq] at h
  | .str _, .null, h => by simp [Json.beq] at h
  | .str _, .bool _, h => by simp [Json.beq] at h
  | .str _, .num _, h => by simp [Json.beq] at h
  | .str _, .arr _, h => by simp [Json.beq] at h
  | .str _, .obj _, h => by simp [Json.beq] at h
  | .arr _, .null, h => by simp [Json.beq] at h
  | .arr _, .bool _, h => by simp [Json.beq] at h
  | .arr _, .num _, h => by simp [Json.beq] at h
  | .arr _, .str _, h => by simp [Json.beq] at h
  | .arr _, .obj _, h => by simp [Json.beq] at h
  | .obj _, .null, h => by simp [Json.beq] at h
  | .obj _, .bool _, h => by simp [Json.beq] at h
  | .obj _, .num _, h => by simp [Json.beq] at h
  | .obj _, .str _, h => by simp [Json.beq] at h
  | .obj _, .arr _, h => by simp [Json.beq] at h

theorem Json.eqList_of_beq : ∀ {a b : List Json}, Json.beqList a b = true → a = b
  | [], [], _ => rfl
  | [], _ :: _, h => by simp [Json.beqList] at h
  | _ :: _, [], h => by simp [Json.beqList] at h
  | x :: xs, y :: ys, h => by
      simp only [Json.beqList, Bool.and_eq_true] at h
      rw [Json.eq_of_beq h.1, Json.eqList_of_beq h.2]

theorem Json.eqObj_of_beq : ∀ {a b : List (String × Json)}, Json.beqObj a b = true → a = b
  | [], [], _ => rfl
  | [], _ :: _, h => by simp [Json.beqObj] at h
  | _ :: _, [], h => by simp [Json.beqObj] at h
  | (k1, v1) :: xs, (k2, v2) :: ys, h => by
      simp only [Json.beqObj, Bool.and_eq_true] at h
      obtain ⟨⟨hk, hv⟩, ht⟩ := h
      simp only [beq_iff_eq] at hk
      rw [hk, Json.eq_of_beq hv, Json.eqObj_of_beq ht]

end

instance : DecidableEq Json := fun a b =>
  if h : Json.beq a b = true then
    .isTrue (Json.eq_of_beq h)
  else
    .isFalse (fun he => h (he ▸ Json.beq_refl a))

instance {ε α : Type} [DecidableEq ε] [DecidableEq α] : DecidableEq (Except ε α) := fun a b =>
  match a, b with
  | .ok x, .ok y =>
      if h : x = y then .isTrue (by rw [h]) else .isFalse (by intro he; cases he; exact h rfl)
  | .error x, .error y =>
      if h : x = y then .isTrue (by rw [h]) else .isFalse (by intro he; cases he; exact h rfl)
  | .ok _, .error _ => .isFalse (by intro he; cases he)
  | .error _, .ok _ => .isFalse (by intro he; cases he)

/-- Python `==` on the embedded values: booleans compare equal to the
integers 0/1 (`bool` is a subclass of `int`). The embedded code only ever
compares scalars; container comparisons are modelled structurally. -/
def pyEq : Json → Json → Bool
  | .null, .null => true
  | .bool a, .bool b => a == b
  | .bool a, .num n => (if a then (1 : Int) else 0) == n
  | .num n, .bool b => n == (if b then (1 : Int) else 0)
  | .num a, .num b => a == b
  | .str a, .str b => a == b
  | .arr a, .arr b => a == b
  | .obj a, .obj b => a == b
  | _, _ => false

/-- Python truthiness of a JSON value. -/
def truthy : Json → Bool
  | .null => false
  | .bool b => b
  | .num n => n != 0
  | .str s => s != ""
  | .arr l => !l.isEmpty
  | .obj l => !l.isEmpty

/-- Whether a value may be used as a Python dict key (lists and dicts are
unhashable). -/
def hashable : Json → Bool
  | .arr _ => false
  | .obj _ => false
  | _ => true

/-- Embeds `isinstance(v, (int, float))`, which is true for booleans as well;
`int(v)` for such a value. -/
def numericValue : Json → Option Int
  | .num n => some n
  | .bool b => some (if b then 1 else 0)
  | _ => none

/-- Field lookup in a JSON object (`d[k]` / `d.get(k)` for string keys, the
only key type `json.load` produces in objects). -/
def objGet (fields : List (String × Json)) (key : String) : Option Json :=
  (fields.find? (fun p => p.1 == key)).map (·.2)

/-- Exceptions the embedded pipeline code can raise. -/
inductive PyErr where
  | attrError : PyErr
  | typeError : PyErr
deriving DecidableEq

/-- Lookup in the aggregation dict `state_populations` keyed by Python
equality. -/
def pyLookup (acc : List (Json × Int)) (k : Json) : Option Int :=
  (acc.find? (fun p => pyEq p.1 k)).map (·.2)

/-- Embeds `state_populations[state] = state_populations.get(state, 0) + int(population)`:
update in place when the key is present (Python dicts keep the original key
and position), else append. -/
def pyDictAdd (acc : List (Json × Int)) (k : Json) (v : Int) : List (Json × Int) :=
  let newv := (pyLookup acc k).getD 0 + v
  if (pyLookup acc k).isSome then
    acc.map (fun p => if pyEq p.1 k then (p.1, newv) else p)
  else
    acc ++ [(k, newv)]

/-- Embeds `attributes = feature.get('attributes', {})` viewed together with the
subsequent attribute reads: raises `AttributeError` when the element is not
a dict (no `.get`), and when the attributes value is not a dict (its `.get`
calls below would raise); otherwise yields the attributes' fields. -/
def getAttributes (feature : Json) : Except PyErr (List (String × Json)) :=
  match feature with
  | .obj fields =>
    match (objGet fields "attributes").getD (.obj []) with
    | .obj afields => .ok afields
    | _ => .error .attrError
  | _ => .error .attrError

/-- One iteration of the `aggregate_by_state` loop: read `STATE_NAME`
(default `None`) and `POPULATION` (default `0`), and add `int(population)`
to the state's entry when the state is truthy and the population numeric; an
unhashable truthy state raises `TypeError` at the dict access. -/
def aggStep (acc : List (Json × Int)) (feature : Json) : Except PyErr (List (Json × Int)) :=
  match getAttributes feature with
  | .error e => .error e
  | .ok afields =>
    let state := (objGet afields "STATE_NAME").getD .null
    let population := (objGet afields "POPULATION").getD (.num 0)
    if truthy state then
      match numericValue population with
      | some v =>
        if hashable state then .ok (pyDictAdd acc state v)
        else .error .typeError
      | none => .ok acc
    else .ok acc

/-- The loop of `aggregate_by_state`, threading the accumulator dict; an
exception at any element aborts the whole aggregation. -/
def aggLoop : List Json → List (Json × Int) → Except PyErr (List (Json × Int))
  | [], acc => .ok acc
  | feature :: rest, acc =>
    match aggStep acc feature with
    | .ok acc2 => aggLoop rest acc2
    | .error e => .error e

/-- Embeds `DataProcessor.aggregate_by_state` (data_processor.py lines 67-79). -/
def aggregate_by_state (data : List Json) : Except PyErr (List (Json × Int)) :=
  aggLoop data []

/-- Substring test on character lists (Python `needle in haystack` for
strings). -/
def listContainsSub (needle : List Char) : List Char → Bool
  | [] => needle.isEmpty
  | c :: t => needle.isPrefixOf (c :: t) || listContainsSub needle t

/-- Python `key in container`: dict key membership, list element membership
(under Python equality), substring test for strings; `TypeError` for
non-container values. -/
def pyContains (container : Json) (key : String) : Except PyErr Bool :=
  match container with
  | .obj fields => .ok (fields.any (fun p => p.1 == key))
  | .arr elems => .ok (elems.any (fun e => pyEq e (.str key)))
  | .str s => .ok (listContainsSub key.data s.data)
  | _ => .error .typeError

/-- The per-item check loop of `validate_json_file` over `data[:5]`: each
item must be a dict containing `'attributes'`, and the attributes value must
contain both `'STATE_NAME'` and `'POPULATION'` under Python `in`. A
`TypeError` from `in` is caught by the enclosing `except`, which also makes
the whole validation return `False`. -/
def validateItems : List Json → Bool
  | [] => true
  | item :: rest =>
    match item with
    | .obj fields =>
      match objGet fields "attributes" with
      | none => false
      | some attributes =>
        match pyContains attributes "STATE_NAME", pyContains attributes "POPULATION" with
        | .ok b1, .ok b2 => if b1 && b2 then validateItems rest else false
        | _, _ => false
    | _ => false

/-- Embeds `DataProcessor.validate_json_file` (data_processor.py lines 134-154).
The file's contents are embedded as `Option Json`: `none` covers an
unreadable or syntactically invalid file (`open`/`json.load` raising, caught
by the `except`). -/
def validate_json_file (content : Option Json) : Bool :=
  match content with
  | some (.arr items) => validateItems (items.take 5)
  | _ => false

/-- A parsed timestamp, as `datetime.strptime` returns it. -/
structure DateTime where
  year : Nat
  month : Nat
  day : Nat
  hour : Nat
  minute : Nat
  second : Nat
deriving DecidableEq

/-- Errors of `extract_timestamp`: the explicit
`ValueError("Invalid filename format: ...")` when the regular expression does
not match (the spec's `MalformedFilename`), and the `ValueError` raised by
`strptime` on a matched but calendar-invalid digit group. -/
inductive ExtractErr where
  | malformedFilename : ExtractErr
  | invalidDate : ExtractErr
deriving DecidableEq

def digitsVal (cs : List Char) : Nat :=
  cs.foldl (fun a c => a * 10 + (c.toNat - 48)) 0

def isLeap (y : Nat) : Bool :=
  (y % 4 == 0 && y % 100 != 0) || (y % 400 == 0)

def daysInMonth (y m : Nat) : Nat :=
  if m == 2 then (if isLeap y then 29 else 28)
  else if m == 4 || m == 6 || m == 9 || m == 11 then 30
  else 31

/-- Embeds `datetime.strptime(date_part + time_part, "%Y%m%d%H%M%S")` on the two
digit groups: fixed-width numeric fields, with full calendar validation. -/
def strptime14 (d8 t6 : List Char) : Except ExtractErr DateTime :=
  let y := digitsVal (d8.take 4)
  let mo := digitsVal ((d8.drop 4).take 2)
  let d := digitsVal (d8.drop 6)
  let h := digitsVal (t6.take 2)
  let mi := digitsVal ((t6.drop 2).take 2)
  let se := digitsVal (t6.drop 4)
  if 1 ≤ y && 1 ≤ mo && mo ≤ 12 && 1 ≤ d && d ≤ daysInMonth y mo
      && h ≤ 23 && mi ≤ 59 && se ≤ 59 then
    .ok ⟨y, mo, d, h, mi, se⟩
  else
    .error .invalidDate

def stripPrefixL : List Char → List Char → Option (List Char)
  | [], cs => some cs
  | _, [] => none
  | p :: ps, c :: cs => if p == c then stripPrefixL ps cs else none

/-- Match `demographic_data_(\d{8})_(\d{6})\.json` at the head of the
character list; all pieces are fixed-width or literal, so the regex engine
never backtracks within one start position. Returns the two digit groups
and the remainder after `.json`. -/
def matchAt (cs : List Char) : Option (List Char × List Char × List Char) :=
  match stripPrefixL "demographic_data_".data cs with
  | none => none
  | some r1 =>
    let d8 := r1.take 8
    if d8.length == 8 && d8.all Char.isDigit then
      match r1.drop 8 with
      | '_' :: r2 =>
        let t6 := r2.take 6
        if t6.length == 6 && t6.all Char.isDigit then
          match stripPrefixL ".json".data (r2.drop 6) with
          | some rest => some (d8, t6, rest)
          | none => none
        else none
      | _ => none
    else none

/-- Embeds `re.search` of the extraction pattern: leftmost match over all start
positions. -/
def findTsMatch : List Char → Option (List Char × List Char × List Char)
  | [] => none
  | c :: rest =>
    match matchAt (c :: rest) with
    | some g => some g
    | none => findTsMatch rest

/-- Embeds `DataProcessor.extract_timestamp` (data_processor.py lines 48-57):
`re.search` for the pattern, `ValueError` (`MalformedFilename`) when it does
not match, otherwise `strptime` on the two captured groups. -/
def extract_timestamp (filename : String) : Except ExtractErr DateTime :=
  match findTsMatch filename.data with
  | none => .error .malformedFilename
  | some (d8, t6, _) => strptime14 d8 t6

/-- The discovery filter of `find_demographic_files` (data_processor.py
lines 37-46): `re.match(r"demographic_data_\d{8}_\d{6}\.json$", name)`,
i.e. the extraction pattern anchored at both ends. The looser
`demographic_data_*.json` glob prefilter is subsumed by this regex. -/
def isDemographicFilename (name : String) : Bool :=
  match matchAt name.data with
  | some (_, _, rest) => rest.isEmpty
  | none => false

/-- A staged input file: its filename and its contents as `json.load` would
see them (`none` = unreadable or syntactically invalid). -/
structure PFile where
  name : String
  content : Option Json
deriving DecidableEq

/-- One row of the `state_populations` table. -/
structure DbRow where
  total_population : Int
  last_updated : Nat
  source_file : String
deriving DecidableEq

/-- The pipeline's mutable world: the staging directory, the two archive
directories, the SQLite table (keyed by `state_name`, the primary key), and
the processing log. -/
structure PState where
  staging : List PFile
  processed : List PFile
  errorDir : List PFile
  db : List (Json × DbRow)
  log : List String
deriving DecidableEq

/-- Embeds `DataProcessor.find_demographic_files` (data_processor.py lines 37-46). -/
def find_demographic_files (s : PState) : List PFile :=
  s.staging.filter (fun f => isDemographicFilename f.name)

/-- Embeds `DataProcessor.log_processing` (data_processor.py lines 123-132):
append-only log. -/
def log_processing (s : PState) (msg : String) : PState :=
  { s with log := s.log ++ [msg] }

/-- The timestamp key by which Python compares `datetime` values, linearised
(lexicographic on the six fields; the factors bound each field's range for a
calendar-valid value). -/
def dtKey (d : DateTime) : Nat :=
  ((((d.year * 13 + d.month) * 32 + d.day) * 24 + d.hour) * 60 + d.minute) * 60 + d.second

/-- The iteration of Python's `max(files, key=...)`: keeps the current
maximum, replacing it only on a strictly greater key, so ties keep the
earlier element; a key-function exception propagates. -/
def maxLoop : List PFile → PFile → Nat → Except ExtractErr PFile
  | [], best, _ => .ok best
  | f :: rest, best, bk =>
    match extract_timestamp f.name with
    | .error e => .error e
    | .ok d => if bk < dtKey d then maxLoop rest f (dtKey d) else maxLoop rest best bk

/-- Embeds `DataProcessor.find_latest_file` (data_processor.py lines 59-65). -/
def find_latest_file (files : List PFile) : Except ExtractErr (Option PFile) :=
  match files with
  | [] => .ok none
  | f :: rest =>
    match extract_timestamp f.name with
    | .error e => .error e
    | .ok d => (maxLoop rest f (dtKey d)).map some

/-- Embeds `INSERT OR REPLACE` keyed by the primary key: SQLite deletes any
conflicting row and appends the new one. -/
def upsertRow (db : List (Json × DbRow)) (k : Json) (r : DbRow) : List (Json × DbRow) :=
  db.filter (fun p => !(pyEq p.1 k)) ++ [(k, r)]

/-- Embeds `DataProcessor.update_database` (data_processor.py lines 81-97): one
upsert per aggregate entry inside a single transaction, counting the rows
written; `datetime.now()` is passed in as `now`. -/
def update_database (aggs : List (Json × Int)) (source_file : String) (now : Nat)
    (db : List (Json × DbRow)) : Nat × List (Json × DbRow) :=
  aggs.foldl
    (fun acc p => (acc.1 + 1, upsertRow acc.2 p.1 ⟨p.2, now, source_file⟩))
    (0, db)

/-- Remove the first staging entry with the given name (the file
`shutil.move` would find at that path), returning it and the remaining
staging list. -/
def removeFirst : List PFile → String → Option (PFile × List PFile)
  | [], _ => none
  | f :: rest, n =>
    if f.name == n then some (f, rest)
    else (removeFirst rest n).map (fun p => (p.1, f :: p.2))

/-- One `shutil.move` out of staging into `processed/` (`dest = true`) or
`error/` (`dest = false`); a missing source raises, which `archive_files`
catches and logs, continuing with the rest of the batch. -/
def moveOne (s : PState) (f : PFile) (dest : Bool) : PState :=
  match removeFirst s.staging f.name with
  | some (g, rest) =>
    if dest then { s with staging := rest, processed := s.processed ++ [g] }
    else { s with staging := rest, errorDir := s.errorDir ++ [g] }
  | none => { s with log := s.log ++ ["ERROR moving " ++ f.name] }

/-- Embeds `DataProcessor.archive_files` (data_processor.py lines 99-116). -/
def archive_files (s : PState) (files errorFiles : List PFile) : PState :=
  let s1 := files.foldl (fun st f => moveOne st f true) s
  errorFiles.foldl (fun st f => moveOne st f false) s1

/-- The exceptions that can escape the body of `process_all_data` up to its
cycle-boundary handler. -/
inductive CycleErr where
  | extractErr : ExtractErr → CycleErr
  | loadErr : CycleErr
  | aggErr : PyErr → CycleErr
deriving DecidableEq

/-- The `try`-block body of `DataProcessor.process_all_data`
(data_processor.py lines 158-205), before the cycle-boundary `except`. An
error result carries the state at the raise point (all raise points precede
the database/archive mutations, so only log entries have accumulated). The
two `loadErr`/non-array fallbacks are unreachable because the selected file
passed `validate_json_file`. -/
def processBody (s0 : PState) (now : Nat) : Except (CycleErr × PState) (Bool × PState) :=
  let s := log_processing s0 "PROCESSING_START: Starting data processing"
  let files := find_demographic_files s
  if files.isEmpty then
    .ok (false, log_processing s "NO_FILES: No demographic data files found")
  else
    let s := log_processing s "FILES_FOUND: unprocessed files discovered"
    let valid := files.filter (fun f => validate_json_file f.content)
    let errf := files.filter (fun f => !validate_json_file f.content)
    let s := errf.foldl (fun st f => log_processing st ("VALIDATION_ERROR: " ++ f.name)) s
    if valid.isEmpty then
      let s := log_processing s "NO_VALID_FILES: No valid files to process"
      .ok (false, archive_files s [] errf)
    else
      match find_latest_file valid with
      | .error e => .error (.extractErr e, s)
      | .ok none => .error (.loadErr, s)
      | .ok (some latest) =>
        let s := log_processing s ("LATEST_FILE: " ++ latest.name)
        match latest.content with
        | none => .error (.loadErr, s)
        | some data =>
          match data with
          | .arr elems =>
            match aggregate_by_state elems with
            | .error e => .error (.aggErr e, s)
            | .ok aggs =>
              let db' := (update_database aggs latest.name now s.db).2
              let s := { s with db := db' }
              let s := archive_files s valid errf
              let s := log_processing s "DATABASE_UPDATE: states updated"
              let s := log_processing s "FILES_ARCHIVED: files moved to processed/"
              let s := if errf.isEmpty then s
                       else log_processing s "ERROR_FILES: files moved to error/"
              let s := log_processing s "PROCESSING_SUCCESS: Data processing completed"
              .ok (true, s)
          | _ => .error (.aggErr .typeError, s)

/-- Embeds `DataProcessor.process_all_data` (data_processor.py lines 156-209): the
body wrapped in the cycle-boundary handler, which logs with the
`PROCESSING_ERROR` marker and converts any exception to `false`. -/
def process_all_data (s : PState) (now : Nat) : Bool × PState :=
  match processBody s now with
  | .ok r => r
  | .error (_, s') => (false, log_processing s' "PROCESSING_ERROR: exception caught")

/-- Modelled from the spec: lifecycle state of a `ScheduledJob` (spec section
3); the underlying scheduling engine (the external APScheduler dependency)
is not part of the repository source, so jobs carry an explicit state enum
as the spec's data model prescribes. -/
inductive JobState where
  | active : JobState
  | paused : JobState
  | executing : JobState
deriving DecidableEq

/-- Modelled from the spec: one engine job record (identifier, name,
interval seconds, next-scheduled-fire time, lifecycle state). -/
structure SJob where
  id : String
  name : String
  interval : Nat
  next_run_time : Option Nat
  state : JobState
deriving DecidableEq

/-- The `job.pending` attribute the wrapper probes, modelled from the spec
as the paused flag (the wrapper and the repository's tests treat `pending`
as meaning paused). -/
def SJob.pending (j : SJob) : Bool := j.state == .paused

/-- The `job.executing` attribute the wrapper probes. -/
def SJob.isExecuting (j : SJob) : Bool := j.state == .executing

/-- Modelled from the spec: the engine's live job set plus its running
flag. -/
structure SchedulerState where
  jobs : List SJob
  running : Bool
deriving DecidableEq

/-- Embeds `self.scheduler.get_job(job_id)`: lookup by identifier. -/
def get_job (st : SchedulerState) (jobId : String) : Option SJob :=
  st.jobs.find? (fun j => j.id == jobId)

/-- Modelled from the spec: `scheduler.pause_job` — the job will not fire
until resumed (state `paused`, no next-fire time). -/
def engine_pause_job (st : SchedulerState) (jobId : String) : SchedulerState :=
  { st with jobs := st.jobs.map (fun j =>
      if j.id == jobId then { j with state := .paused, next_run_time := none } else j) }

/-- Modelled from the spec: `scheduler.resume_job` — state back to `active`
with the next fire one interval away. -/
def engine_resume_job (st : SchedulerState) (jobId : String) (now : Nat) : SchedulerState :=
  { st with jobs := st.jobs.map (fun j =>
      if j.id == jobId then { j with state := .active, next_run_time := some (now + j.interval) } else j) }

/-- Modelled from the spec: `scheduler.remove_job` — deletes the job from
the live set. -/
def engine_remove_job (st : SchedulerState) (jobId : String) : SchedulerState :=
  { st with jobs := st.jobs.filter (fun j => j.id != jobId) }

/-- Embeds `job.modify(next_run_time=t)`. -/
def engine_modify_next_run (st : SchedulerState) (jobId : String) (t : Nat) : SchedulerState :=
  { st with jobs := st.jobs.map (fun j =>
      if j.id == jobId then { j with next_run_time := some t } else j) }

/-- Typed failure of the scheduler control surface. -/
inductive SchedErr where
  | jobNotFound : String → SchedErr
deriving DecidableEq

/-- Result record of `pause_job` / `resume_job` / `remove_job` (the
`message` field is omitted; `status` is the reported state string). -/
structure ControlResult where
  job_id : String
  job_name : String
  status : String
deriving DecidableEq

/-- Embeds `DemographicsScheduler.pause_job` (scheduler.py lines 168-185): raises
`JobNotFound` before any mutation when the id is unknown. -/
def pause_job (st : SchedulerState) (jobId : String) :
    SchedulerState × Except SchedErr ControlResult :=
  match get_job st jobId with
  | none => (st, .error (.jobNotFound jobId))
  | some j => (engine_pause_job st jobId, .ok ⟨jobId, j.name, "paused"⟩)

/-- Embeds `DemographicsScheduler.resume_job` (scheduler.py lines 187-204). -/
def resume_job (st : SchedulerState) (jobId : String) (now : Nat) :
    SchedulerState × Except SchedErr ControlResult :=
  match get_job st jobId with
  | none => (st, .error (.jobNotFound jobId))
  | some j => (engine_resume_job st jobId now, .ok ⟨jobId, j.name, "running"⟩)

/-- Embeds `DemographicsScheduler.remove_job` (scheduler.py lines 206-226). -/
def remove_job (st : SchedulerState) (jobId : String) :
    SchedulerState × Except SchedErr ControlResult :=
  match get_job st jobId with
  | none => (st, .error (.jobNotFound jobId))
  | some j => (engine_remove_job st jobId, .ok ⟨jobId, j.name, "removed"⟩)

/-- The status string `get_job_status`/`get_job_details` derive from the
probed attributes (scheduler.py lines 135-140 and 239-244). -/
def classify (j : SJob) : String :=
  if j.pending then "paused"
  else if j.isExecuting then "executing"
  else "running"

/-- One entry of the `jobs` array in a status report. -/
structure JobInfo where
  id : String
  name : String
  status : String
  next_run_time : Option Nat
  pending : Bool
  executing_flag : Bool
deriving DecidableEq

def jobInfoOf (j : SJob) : JobInfo :=
  ⟨j.id, j.name, classify j, j.next_run_time, j.pending, j.isExecuting⟩

/-- Embeds `DemographicsScheduler.get_job_details` (scheduler.py lines 228-258). -/
def get_job_details (st : SchedulerState) (jobId : String) :
    SchedulerState × Except SchedErr JobInfo :=
  match get_job st jobId with
  | none => (st, .error (.jobNotFound jobId))
  | some j => (st, .ok (jobInfoOf j))

/-- The structured report of `get_job_status`. -/
structure StatusReport where
  scheduler_running : Bool
  total_jobs : Nat
  running_jobs : Nat
  paused_jobs : Nat
  executing_jobs : Nat
  jobs : List JobInfo
deriving DecidableEq

/-- Embeds `DemographicsScheduler.get_job_status` (scheduler.py lines 118-166):
one job or all jobs, each classified into exactly one lifecycle status, with
per-state counts. -/
def get_job_status (st : SchedulerState) (jobId : Option String) : StatusReport :=
  let jobs := match jobId with
    | some i => match get_job st i with
      | some j => [j]
      | none => []
    | none => st.jobs
  let info := jobs.map jobInfoOf
  { scheduler_running := st.running
    total_jobs := jobs.length
    running_jobs := (info.filter (fun i => i.status == "running")).length
    paused_jobs := (info.filter (fun i => i.status == "paused")).length
    executing_jobs := (info.filter (fun i => i.status == "executing")).length
    jobs := info }

/-- Result record of `trigger_job_manually`. -/
structure TriggerResult where
  job_id : String
  job_name : String
  triggered_at : Nat
  auto_resumed : Bool
deriving DecidableEq

/-- Embeds `DemographicsScheduler.trigger_job_manually` (scheduler.py lines
260-295): unknown id fails; a paused job is resumed first (`auto_resumed`);
the job's next run time is set to now — the bound action is never invoked
here, the timer picks the job up. -/
def trigger_job_manually (st : SchedulerState) (jobId : String) (now : Nat) :
    SchedulerState × Except SchedErr TriggerResult :=
  match get_job st jobId with
  | none => (st, .error (.jobNotFound jobId))
  | some j =>
    let was_paused := j.pending
    let st1 := if was_paused then engine_resume_job st jobId now else st
    let st2 := engine_modify_next_run st1 jobId now
    (st2, .ok ⟨jobId, j.name, now, was_paused⟩)

end Demographics

namespace Demographics

instance : LawfulBEq Json where
  eq_of_beq h := Json.eq_of_beq h
  rfl := Json.beq_refl _

theorem pyEq_refl (j : Json) : pyEq j j = true := by
  cases j <;> simp [pyEq]

/-- C6. `extract_timestamp` on the well-formed example filename yields
2026-01-24 15:30:45; on "invalid.json" it fails with `MalformedFilename`;
and in general the `MalformedFilename` failure occurs exactly when the
extraction pattern finds no match in the filename (a matched but
calendar-invalid digit group fails differently, with the `strptime`
`ValueError`). -/
theorem extract_timestamp_spec :
    extract_timestamp "demographic_data_20260124_153045.json" = .ok ⟨2026, 1, 24, 15, 30, 45⟩ ∧
    extract_timestamp "invalid.json" = .error .malformedFilename ∧
    ∀ s : String,
      (extract_timestamp s = .error .malformedFilename ↔ findTsMatch s.data = none) := by
  refine ⟨by decide, by decide, ?_⟩
  intro s
  unfold extract_timestamp
  cases h : findTsMatch s.data with
  | none => simp
  | some g =>
    obtain ⟨d8, t6, rest⟩ := g
    simp only [strptime14]
    constructor
    · intro he
      split at he
      · cases he
      · cases he
    · intro he
      cases he

/-- Witness for C6: the general equivalence applied at a concrete
filename. -/
theorem extract_timestamp_spec_witness :
    extract_timestamp "notes.txt" = .error .malformedFilename ↔
      findTsMatch "notes.txt".data = none :=
  extract_timestamp_spec.2.2 "notes.txt"

/-- C2. `process_all_data` always returns a boolean result: either the
`try`-block body completes and its result is returned unchanged, or the body
raises and the cycle-boundary handler converts the exception to `false`
together with a log entry carrying the `PROCESSING_ERROR` marker. -/
theorem process_all_data_no_raise (s : PState) (now : Nat) :
    (∃ r, processBody s now = .ok r ∧ process_all_data s now = r) ∨
    (∃ e s', processBody s now = .error (e, s') ∧
      process_all_data s now =
        (false, log_processing s' "PROCESSING_ERROR: exception caught")) := by
  unfold process_all_data
  cases h : processBody s now with
  | ok r => exact .inl ⟨r, rfl, rfl⟩
  | error p => exact .inr ⟨p.1, p.2, rfl, rfl⟩

theorem classify_cases (j : SJob) :
    classify j = "running" ∨ classify j = "paused" ∨ classify j = "executing" := by
  unfold classify
  split
  · exact .inr (.inl rfl)
  · split
    · exact .inr (.inr rfl)
    · exact .inl rfl

theorem count_partition (l : List SJob) :
    ((l.map jobInfoOf).filter (fun i => i.status == "running")).length
      + ((l.map jobInfoOf).filter (fun i => i.status == "paused")).length
      + ((l.map jobInfoOf).filter (fun i => i.status == "executing")).length
    = l.length := by
  induction l with
  | nil => rfl
  | cons j t ih =>
    rcases classify_cases j with h | h | h <;>
      simp [List.filter_cons, jobInfoOf, h] <;> omega

/-- C9. Every report `get_job_status` produces (for one job or for all)
counts each listed job in exactly one of the three lifecycle states:
`total_jobs = running_jobs + paused_jobs + executing_jobs`. This holds for
every scheduler state, hence in particular after `start()` and after every
control operation. -/
theorem get_job_status_partition (st : SchedulerState) (jid : Option String) :
    (get_job_status st jid).total_jobs =
      (get_job_status st jid).running_jobs + (get_job_status st jid).paused_jobs
        + (get_job_status st jid).executing_jobs := by
  unfold get_job_status
  cases jid with
  | none => exact (count_partition st.jobs).symm
  | some i =>
    cases h : get_job st i with
    | none => simp only [h]; exact (count_partition []).symm
    | some j => simp only [h]; exact (count_partition [j]).symm

/-- C7. Every control operation invoked with a job id that is not in the job
set fails with the `JobNotFound` failure and returns the scheduler state
unchanged (no job is mutated). -/
theorem unknown_job_control (st : SchedulerState) (jobId : String) (now : Nat)
    (h : get_job st jobId = none) :
    pause_job st jobId = (st, .error (.jobNotFound jobId)) ∧
    resume_job st jobId now = (st, .error (.jobNotFound jobId)) ∧
    remove_job st jobId = (st, .error (.jobNotFound jobId)) ∧
    trigger_job_manually st jobId now = (st, .error (.jobNotFound jobId)) ∧
    get_job_details st jobId = (st, .error (.jobNotFound jobId)) := by
  unfold pause_job resume_job remove_job trigger_job_manually get_job_details
  rw [h]
  exact ⟨rfl, rfl, rfl, rfl, rfl⟩

/-- Witness for C7: the default two-job scheduler with an unknown id. -/
theorem unknown_job_control_witness :
    get_job ⟨[⟨"fetch_data", "Fetch", 86400, some 9, .active⟩,
              ⟨"process_data", "Process", 86400, some 9, .active⟩], true⟩
        "nonexistent_job" = none ∧
    pause_job ⟨[⟨"fetch_data", "Fetch", 86400, some 9, .active⟩,
                ⟨"process_data", "Process", 86400, some 9, .active⟩], true⟩
        "nonexistent_job"
      = (⟨[⟨"fetch_data", "Fetch", 86400, some 9, .active⟩,
           ⟨"process_data", "Process", 86400, some 9, .active⟩], true⟩,
         .error (.jobNotFound "nonexistent_job")) :=
  ⟨by decide,
   (unknown_job_control
      ⟨[⟨"fetch_data", "Fetch", 86400, some 9, .active⟩,
        ⟨"process_data", "Process", 86400, some 9, .active⟩], true⟩
      "nonexistent_job" 0 (by decide)).1⟩

theorem find?_map_if (l : List SJob) (jobId : String) (f : SJob → SJob)
    (hf : ∀ x, (f x).id = x.id) :
    (l.map (fun x => if x.id == jobId then f x else x)).find? (fun j => j.id == jobId)
      = (l.find? (fun j => j.id == jobId)).map f := by
  induction l with
  | nil => rfl
  | cons a t ih =>
    simp only [List.map_cons]
    by_cases h : (a.id == jobId) = true
    · rw [if_pos h, List.find?_cons, List.find?_cons]
      rw [hf, h]
      rfl
    · have hb : (a.id == jobId) = false := by
        cases hx : (a.id == jobId)
        · rfl
        · exact absurd hx h
      rw [if_neg h, List.find?_cons, List.find?_cons]
      rw [hb]
      exact ih

theorem get_job_engine_resume (st : SchedulerState) (jobId : String) (now : Nat) :
    get_job (engine_resume_job st jobId now) jobId
      = (get_job st jobId).map
          (fun j => { j with state := .active, next_run_time := some (now + j.interval) }) :=
  find?_map_if st.jobs jobId _ (fun _ => rfl)

theorem get_job_engine_modify (st : SchedulerState) (jobId : String) (t : Nat) :
    get_job (engine_modify_next_run st jobId t) jobId
      = (get_job st jobId).map (fun j => { j with next_run_time := some t }) :=
  find?_map_if st.jobs jobId _ (fun _ => rfl)

/-- C8. Manually triggering a known paused job auto-resumes it (its state
becomes `active`), reports `auto_resumed = true`, sets the job's next run
time to now (the trigger never invokes the bound action itself), and a
subsequent status query no longer shows the job as paused; triggering a
known non-paused job reports `auto_resumed = false`. -/
theorem trigger_manual_auto_resume (st : SchedulerState) (jobId : String) (now : Nat) (j : SJob)
    (h : get_job st jobId = some j) :
    (j.pending = true →
      ∃ r, (trigger_job_manually st jobId now).2 = .ok r ∧ r.auto_resumed = true ∧
      ∃ j2, get_job (trigger_job_manually st jobId now).1 jobId = some j2 ∧
        j2.state = .active ∧ j2.next_run_time = some now ∧
        (get_job_status (trigger_job_manually st jobId now).1 (some jobId)).paused_jobs = 0 ∧
        ∀ i ∈ (get_job_status (trigger_job_manually st jobId now).1 (some jobId)).jobs,
          i.status ≠ "paused") ∧
    (j.pending = false →
      ∃ r, (trigger_job_manually st jobId now).2 = .ok r ∧ r.auto_resumed = false) := by
  constructor
  · intro hp
    have htrig : trigger_job_manually st jobId now
        = (engine_modify_next_run (engine_resume_job st jobId now) jobId now,
           .ok ⟨jobId, j.name, now, true⟩) := by
      unfold trigger_job_manually
      rw [h]
      simp [hp]
    refine ⟨⟨jobId, j.name, now, true⟩, by rw [htrig], rfl, ?_⟩
    have hg : get_job (trigger_job_manually st jobId now).1 jobId
        = some { j with state := .active, next_run_time := some now } := by
      rw [htrig]
      rw [get_job_engine_modify, get_job_engine_resume, h]
      rfl
    refine ⟨_, hg, rfl, rfl, ?_, ?_⟩
    · simp [get_job_status, hg, jobInfoOf, classify, SJob.pending, SJob.isExecuting]
    · simp only [get_job_status, hg]
      intro i hi
      simp only [List.map_cons, List.map_nil, List.mem_cons, List.not_mem_nil, or_false] at hi
      rw [hi]
      simp [jobInfoOf, classify, SJob.pending, SJob.isExecuting]
  · intro hp
    have htrig : trigger_job_manually st jobId now
        = (engine_modify_next_run st jobId now, .ok ⟨jobId, j.name, now, false⟩) := by
      unfold trigger_job_manually
      rw [h]
      simp [hp]
    exact ⟨⟨jobId, j.name, now, false⟩, by rw [htrig], rfl⟩

/-- Witness for C8: a paused job and an active job in concrete scheduler
states, each triggered manually. -/
theorem trigger_manual_auto_resume_witness :
    (∃ r, (trigger_job_manually
        ⟨[⟨"fetch_data", "Fetch", 86400, none, .paused⟩], true⟩ "fetch_data" 7).2
        = .ok r ∧ r.auto_resumed = true ∧
      ∃ j2, get_job (trigger_job_manually
          ⟨[⟨"fetch_data", "Fetch", 86400, none, .paused⟩], true⟩ "fetch_data" 7).1
          "fetch_data" = some j2 ∧
        j2.state = .active ∧ j2.next_run_time = some 7 ∧
        (get_job_status (trigger_job_manually
            ⟨[⟨"fetch_data", "Fetch", 86400, none, .paused⟩], true⟩ "fetch_data" 7).1
            (some "fetch_data")).paused_jobs = 0 ∧
        ∀ i ∈ (get_job_status (trigger_job_manually
            ⟨[⟨"fetch_data", "Fetch", 86400, none, .paused⟩], true⟩ "fetch_data" 7).1
            (some "fetch_data")).jobs, i.status ≠ "paused") ∧
    (∃ r, (trigger_job_manually
        ⟨[⟨"process_data", "Process", 86400, some 3, .active⟩], true⟩ "process_data" 7).2
        = .ok r ∧ r.auto_resumed = false) :=
  ⟨(trigger_manual_auto_resume
      ⟨[⟨"fetch_data", "Fetch", 86400, none, .paused⟩], true⟩ "fetch_data" 7
      ⟨"fetch_data", "Fetch", 86400, none, .paused⟩ (by decide)).1 (by decide),
   (trigger_manual_auto_resume
      ⟨[⟨"process_data", "Process", 86400, some 3, .active⟩], true⟩ "process_data" 7
      ⟨"process_data", "Process", 86400, some 3, .active⟩ (by decide)).2 (by decide)⟩

/-- The database part of `update_database`: the sequence of upserts. -/
def updAll (aggs : List (Json × Int)) (src : String) (now : Nat)
    (db : List (Json × DbRow)) : List (Json × DbRow) :=
  aggs.foldl (fun d p => upsertRow d p.1 ⟨p.2, now, src⟩) db

theorem update_database_foldl (aggs : List (Json × Int)) (src : String) (now : Nat) :
    ∀ (n : Nat) (db : List (Json × DbRow)),
      aggs.foldl (fun acc p => (acc.1 + 1, upsertRow acc.2 p.1 ⟨p.2, now, src⟩)) (n, db)
        = (n + aggs.length, updAll aggs src now db) := by
  induction aggs with
  | nil => intro n db; simp [updAll]
  | cons a t ih =>
    intro n db
    simp only [List.foldl_cons]
    rw [ih]
    simp [updAll, List.length_cons]
    omega

theorem update_database_eq (aggs : List (Json × Int)) (src : String) (now : Nat)
    (db : List (Json × DbRow)) :
    update_database aggs src now db = (aggs.length, updAll aggs src now db) := by
  unfold update_database
  rw [update_database_foldl]
  simp

/-- A row not hit by any key of the aggregate batch. -/
def notMatched (aggs : List (Json × Int)) (p : Json × DbRow) : Bool :=
  aggs.all (fun a => !(pyEq p.1 a.1))

theorem updAll_eq_filter (aggs : List (Json × Int)) (src : String) (now : Nat)
    (hk : aggs.Pairwise (fun a b => pyEq a.1 b.1 = false)) :
    ∀ db : List (Json × DbRow),
      updAll aggs src now db
        = db.filter (notMatched aggs)
          ++ aggs.map (fun a => (a.1, (⟨a.2, now, src⟩ : DbRow))) := by
  induction aggs with
  | nil =>
    intro db
    show db = List.filter (notMatched []) db ++ []
    rw [List.append_nil]
    exact (List.filter_eq_self.mpr (fun a _ => rfl)).symm
  | cons a t ih =>
    intro db
    obtain ⟨ha, ht⟩ := List.pairwise_cons.mp hk
    show updAll t src now (upsertRow db a.1 ⟨a.2, now, src⟩) = _
    rw [ih ht]
    unfold upsertRow
    rw [List.filter_append]
    have h1 : (db.filter (fun p => !(pyEq p.1 a.1))).filter (notMatched t)
        = db.filter (notMatched (a :: t)) := by
      rw [List.filter_filter]
      apply List.filter_congr
      intro x _
      simp [notMatched, List.all_cons, Bool.and_comm]
    have h2 : ([(a.1, (⟨a.2, now, src⟩ : DbRow))]).filter (notMatched t)
        = [(a.1, (⟨a.2, now, src⟩ : DbRow))] := by
      have hnm : notMatched t (a.1, (⟨a.2, now, src⟩ : DbRow)) = true := by
        simp only [notMatched, List.all_eq_true]
        intro b hb
        simp [ha b hb]
      simp [List.filter_cons, hnm]
    rw [h1, h2]
    simp [List.map_cons]

theorem filter_rows_nil (aggs : List (Json × Int)) (src : String) (now : Nat) :
    (aggs.map (fun a => (a.1, (⟨a.2, now, src⟩ : DbRow)))).filter (notMatched aggs) = [] := by
  rw [List.filter_eq_nil_iff]
  intro x hx
  obtain ⟨a, ha, rfl⟩ := List.mem_map.mp hx
  simp only [notMatched, List.all_eq_true]
  intro hall
  have := hall a ha
  simp [pyEq_refl] at this

theorem filter_notMatched_idem (aggs : List (Json × Int)) (db : List (Json × DbRow)) :
    (db.filter (notMatched aggs)).filter (notMatched aggs) = db.filter (notMatched aggs) := by
  rw [List.filter_filter]
  apply List.filter_congr
  intro x _
  exact Bool.and_self _

/-- C5. `update_database` (persist) is idempotent: with identical aggregates,
source name and timestamp, the second run leaves the table exactly as the
first run did; each run returns the number of keys of the aggregate mapping
(its association list has pairwise distinct keys, the Python dict
invariant); and key uniqueness of the table is preserved, so the upserts
never duplicate a row. -/
theorem update_database_idempotent (aggs : List (Json × Int)) (src : String) (now : Nat)
    (db : List (Json × DbRow))
    (hk : aggs.Pairwise (fun a b => pyEq a.1 b.1 = false)) :
    (update_database aggs src now db).1 = aggs.length ∧
    (update_database aggs src now (update_database aggs src now db).2).1 = aggs.length ∧
    (update_database aggs src now (update_database aggs src now db).2).2
      = (update_database aggs src now db).2 ∧
    (db.Pairwise (fun p q => pyEq p.1 q.1 = false) →
      (update_database aggs src now db).2.Pairwise (fun p q => pyEq p.1 q.1 = false)) := by
  have he := update_database_eq aggs src now
  refine ⟨by rw [he], by rw [he, he], ?_, ?_⟩
  · rw [he, he]
    show updAll aggs src now (updAll aggs src now db) = updAll aggs src now db
    rw [updAll_eq_filter aggs src now hk, updAll_eq_filter aggs src now hk]
    rw [List.filter_append, filter_notMatched_idem, filter_rows_nil, List.append_nil]
  · intro hdb
    rw [he]
    show (updAll aggs src now db).Pairwise _
    rw [updAll_eq_filter aggs src now hk]
    rw [List.pairwise_append]
    refine ⟨hdb.filter _, ?_, ?_⟩
    · rw [List.pairwise_map]
      exact hk
    · intro x hx y hy
      obtain ⟨b, hb, rfl⟩ := List.mem_map.mp hy
      have hxf := List.mem_filter.mp hx
      have hnm := hxf.2
      simp only [notMatched, List.all_eq_true] at hnm
      have := hnm b hb
      simpa using this

/-- Witness for C5: the spec's California/Texas example persisted twice into
a table that already held a row. -/
theorem update_database_idempotent_witness :
    (update_database [(.str "California", 3000000), (.str "Texas", 500000)]
        "demographic_data_20260124_153045.json" 4
        [(.str "Ohio", ⟨9, 1, "old.json"⟩)]).1 = 2 ∧
    (update_database [(.str "California", 3000000), (.str "Texas", 500000)]
        "demographic_data_20260124_153045.json" 4
        (update_database [(.str "California", 3000000), (.str "Texas", 500000)]
          "demographic_data_20260124_153045.json" 4
          [(.str "Ohio", ⟨9, 1, "old.json"⟩)]).2).2
      = (update_database [(.str "California", 3000000), (.str "Texas", 500000)]
          "demographic_data_20260124_153045.json" 4
          [(.str "Ohio", ⟨9, 1, "old.json"⟩)]).2 := by
  have h := update_database_idempotent
    [(.str "California", 3000000), (.str "Texas", 500000)]
    "demographic_data_20260124_153045.json" 4
    [(.str "Ohio", ⟨9, 1, "old.json"⟩)]
    (by decide)
  exact ⟨h.1, h.2.2.1⟩


/-- Declarative membership used by the amended validity statement: the
`attributes` value "contains" a field name when it is an object with that
key, a sequence with that string as an element, or a string with that
substring; any other value cannot contain it (the `TypeError` Python's `in`
raises there is caught and fails the validation). -/
def containsName (a : Json) (k : String) : Bool :=
  match a with
  | .obj fields => fields.any (fun p => p.1 == k)
  | .arr elems => elems.any (fun e => pyEq e (.str k))
  | .str s => listContainsSub k.data s.data
  | _ => false

/-- The per-element check of the amended claim: the element is an object
with an `attributes` field whose value contains both field names. -/
def itemOkAmended (item : Json) : Bool :=
  match item with
  | .obj fields =>
    match objGet fields "attributes" with
    | some a => containsName a "STATE_NAME" && containsName a "POPULATION"
    | none => false
  | _ => false

/-- The amended claim's validity predicate, written declaratively: the
contents parse, are a sequence, and each of the first 5 elements is an
object with an `attributes` field whose value contains both field names —
with no requirement on the `POPULATION` value being numeric. -/
def amendedValid (c : Option Json) : Bool :=
  match c with
  | some (.arr items) => (items.take 5).all itemOkAmended
  | _ => false

/-- The claim's validity predicate as the spec states it: each of the first
5 elements contains the aggregation key field and a NUMERIC value field. -/
def claimValidC4 (c : Option Json) : Bool :=
  match c with
  | some (.arr items) => (items.take 5).all (fun item =>
      match item with
      | .obj fields =>
        match objGet fields "attributes" with
        | some (.obj a) =>
          (objGet a "STATE_NAME").isSome &&
          (match objGet a "POPULATION" with
           | some v => (numericValue v).isSome
           | none => false)
        | _ => false
      | _ => false)
  | _ => false

theorem pyContains_eq (a : Json) (k : String) :
    (∃ b, pyContains a k = .ok b ∧ b = containsName a k) ∨
    (pyContains a k = .error .typeError ∧ containsName a k = false) := by
  cases a <;> simp [pyContains, containsName]

theorem validateItems_eq_all (l : List Json) :
    validateItems l = l.all itemOkAmended := by
  induction l with
  | nil => rfl
  | cons item rest ih =>
    rw [List.all_cons]
    cases item with
    | obj fields =>
      show (match objGet fields "attributes" with
            | none => false
            | some attributes =>
              match pyContains attributes "STATE_NAME", pyContains attributes "POPULATION" with
              | .ok b1, .ok b2 => if b1 && b2 then validateItems rest else false
              | _, _ => false)
          = (itemOkAmended (Json.obj fields) && rest.all itemOkAmended)
      rw [show itemOkAmended (Json.obj fields)
            = (match objGet fields "attributes" with
               | some a => containsName a "STATE_NAME" && containsName a "POPULATION"
               | none => false) from rfl]
      cases hat : objGet fields "attributes" with
      | none => rfl
      | some attributes =>
        show (match pyContains attributes "STATE_NAME", pyContains attributes "POPULATION" with
              | .ok b1, .ok b2 => if b1 && b2 then validateItems rest else false
              | _, _ => false)
            = ((containsName attributes "STATE_NAME" && containsName attributes "POPULATION")
                && rest.all itemOkAmended)
        rcases pyContains_eq attributes "STATE_NAME" with ⟨b1, hb1, he1⟩ | ⟨hb1, he1⟩
        · rcases pyContains_eq attributes "POPULATION" with ⟨b2, hb2, he2⟩ | ⟨hb2, he2⟩
          · rw [hb1, hb2]
            subst he1
            subst he2
            show (if containsName attributes "STATE_NAME" && containsName attributes "POPULATION"
                    then validateItems rest else false) = _
            cases hc : (containsName attributes "STATE_NAME" && containsName attributes "POPULATION")
            · simp [hc]
            · simp [hc, ih]
          · rw [hb1, hb2, he2]
            cases b1 <;> simp
        · rw [hb1, he1]
          simp
    | null => rfl
    | bool b => rfl
    | num n => rfl
    | str s => rfl
    | arr es => rfl

/-- C4 (amended). `validate_json_file` returns true exactly when the file's
contents parse, are a top-level sequence, and each of the first 5 elements
is an object with an `attributes` field whose value contains both the
`STATE_NAME` and `POPULATION` field names — mere presence, with no check
that the value field is numeric. -/
theorem validate_json_file_amended (c : Option Json) :
    validate_json_file c = amendedValid c := by
  cases c with
  | none => rfl
  | some j =>
    cases j with
    | arr items =>
      show validateItems (items.take 5) = (items.take 5).all itemOkAmended
      exact validateItems_eq_all (items.take 5)
    | null => rfl
    | bool b => rfl
    | num n => rfl
    | str s => rfl
    | obj f => rfl

/-- Counterexample for C4 as stated: a file whose single element has a
non-numeric `POPULATION` value passes `validate_json_file`, yet the claim's
iff demands that validation fail on it. -/
theorem validate_json_file_cex :
    validate_json_file
      (some (.arr [.obj [("attributes",
        .obj [("STATE_NAME", .str "X"), ("POPULATION", .str "oops")])]])) = true ∧
    claimValidC4
      (some (.arr [.obj [("attributes",
        .obj [("STATE_NAME", .str "X"), ("POPULATION", .str "oops")])]])) = false := by
  decide

/-- Combine two optional per-key contributions: absent on both sides means
the key never appears; otherwise the values add. -/
def combineOpt : Option Int → Option Int → Option Int
  | none, b => b
  | some x, none => some x
  | some x, some y => some (x + y)

/-- The contribution of one element to the aggregation key `k`, following
the spec's words: the element contributes when its `STATE_NAME` is the
(nonempty) string `k`; a missing `POPULATION` contributes zero; a
non-numeric `POPULATION` means the element is skipped. -/
def contribOpt (k : String) (e : Json) : Option Int :=
  match getAttributes e with
  | .ok a =>
    if ((objGet a "STATE_NAME").getD .null == Json.str k) && k != "" then
      match objGet a "POPULATION" with
      | none => some 0
      | some v => numericValue v
    else none
  | .error _ => none

/-- The spec-side per-key sum: stream the elements and add each one's
contribution to `k`. -/
def specSum (k : String) : List Json → Option Int
  | [] => none
  | e :: rest => combineOpt (contribOpt k e) (specSum k rest)

/-- The shape under which a single element cannot make the aggregation
raise: it is an object, its `attributes` value (an empty object when
missing) is an object, and its `STATE_NAME` value is absent, `None`, or a
string. -/
def wfElem (e : Json) : Bool :=
  match getAttributes e with
  | .ok a =>
    match (objGet a "STATE_NAME").getD .null with
    | .null => true
    | .str _ => true
    | _ => false
  | .error _ => false

theorem combineOpt_none_right (a : Option Int) : combineOpt a none = a := by
  cases a <;> rfl

theorem combineOpt_shift (A R : Option Int) (v : Int) :
    combineOpt (some (A.getD 0 + v)) R = combineOpt A (combineOpt (some v) R) := by
  cases A <;> cases R <;> (simp [combineOpt]; try omega)

theorem pyEq_str_iff (x : Json) (k : String) : pyEq x (.str k) = true ↔ x = .str k := by
  cases x <;> simp [pyEq]

theorem pyLookup_nil (k : Json) : pyLookup [] k = none := rfl

theorem pyLookup_cons (p : Json × Int) (t : List (Json × Int)) (k : Json) :
    pyLookup (p :: t) k = if pyEq p.1 k then some p.2 else pyLookup t k := by
  unfold pyLookup
  rw [List.find?_cons]
  cases h : pyEq p.1 k <;> simp [h]

theorem pyEq_str_false_of_ne {x : Json} {s k : String} (hx : x = .str s) (hk : ¬k = s) :
    pyEq x (.str k) = false := by
  subst hx
  cases hq : pyEq (Json.str s) (Json.str k)
  · rfl
  · have h2 := (pyEq_str_iff _ _).mp hq
    injection h2 with h3
    exact (hk h3.symm).elim

theorem pyLookup_map_replace_str (acc : List (Json × Int)) (s : String) (w : Int) (k : String) :
    pyLookup (acc.map (fun p => if pyEq p.1 (.str s) then (p.1, w) else p)) (.str k)
      = if k = s then (pyLookup acc (.str s)).map (fun _ => w)
        else pyLookup acc (.str k) := by
  induction acc with
  | nil =>
    by_cases hk : k = s <;> simp [hk, pyLookup_nil]
  | cons p t ih =>
    by_cases hps : pyEq p.1 (.str s) = true
    · have hp1 : p.1 = .str s := (pyEq_str_iff _ _).mp hps
      by_cases hk : k = s
      · subst hk
        simp [List.map_cons, pyLookup_cons, hps]
      · have hpk : pyEq p.1 (.str k) = false := pyEq_str_false_of_ne hp1 hk
        simp [List.map_cons, pyLookup_cons, hps, hpk, hk, ih]
    · have hps' : pyEq p.1 (.str s) = false := by
        cases hx : pyEq p.1 (.str s)
        · rfl
        · exact absurd hx hps
      by_cases hpk : pyEq p.1 (.str k) = true
      · have hk : ¬k = s := by
          intro he
          subst he
          exact hps hpk
        simp [List.map_cons, pyLookup_cons, hps', hpk, hk]
      · have hpk' : pyEq p.1 (.str k) = false := by
          cases hx : pyEq p.1 (.str k)
          · rfl
          · exact absurd hx hpk
        simp [List.map_cons, pyLookup_cons, hps', hpk', ih]

theorem pyLookup_append_single (acc : List (Json × Int)) (x : Json × Int) (k : Json) :
    pyLookup (acc ++ [x]) k
      = match pyLookup acc k with
        | some v => some v
        | none => if pyEq x.1 k then some x.2 else none := by
  induction acc with
  | nil =>
    rw [List.nil_append, pyLookup_cons, pyLookup_nil]
  | cons p t ih =>
    rw [List.cons_append, pyLookup_cons, pyLookup_cons]
    cases h : pyEq p.1 k
    · simp [ih]
    · simp

theorem pyLookup_pyDictAdd (acc : List (Json × Int)) (s k : String) (v : Int) :
    pyLookup (pyDictAdd acc (.str s) v) (.str k)
      = if k = s then some ((pyLookup acc (.str s)).getD 0 + v)
        else pyLookup acc (.str k) := by
  unfold pyDictAdd
  by_cases hp : (pyLookup acc (.str s)).isSome = true
  · rw [if_pos hp]
    rw [pyLookup_map_replace_str]
    obtain ⟨a, ha⟩ := Option.isSome_iff_exists.mp hp
    by_cases hk : k = s
    · subst hk
      rw [if_pos rfl, if_pos rfl, ha]
      rfl
    · rw [if_neg hk, if_neg hk]
  · rw [if_neg hp]
    have hnone : pyLookup acc (.str s) = none := by
      cases hq : pyLookup acc (.str s)
      · rfl
      · rw [hq] at hp
        simp at hp
    rw [pyLookup_append_single]
    by_cases hk : k = s
    · subst hk
      rw [hnone]
      simp [pyEq_refl, hnone]
    · have hne : pyEq (Json.str s) (Json.str k) = false :=
        pyEq_str_false_of_ne rfl hk
      cases hq : pyLookup acc (.str k)
      · simp [hne, hk]
      · simp [hq, hk]

theorem combineOpt_some_right (A : Option Int) (v : Int) :
    combineOpt A (some v) = some (A.getD 0 + v) := by
  cases A <;> simp [combineOpt]

theorem combineOpt_assoc (a b c : Option Int) :
    combineOpt (combineOpt a b) c = combineOpt a (combineOpt b c) := by
  cases a <;> cases b <;> cases c <;> simp [combineOpt, Int.add_assoc]

theorem aggStep_wf (acc : List (Json × Int)) (e : Json) (hw : wfElem e = true) :
    ∃ acc2, aggStep acc e = .ok acc2 ∧
      ∀ k : String, pyLookup acc2 (.str k)
        = combineOpt (pyLookup acc (.str k)) (contribOpt k e) := by
  cases hga : getAttributes e with
  | error err =>
    exfalso
    unfold wfElem at hw
    rw [hga] at hw
    simp at hw
  | ok afields =>
    unfold wfElem at hw
    rw [hga] at hw
    have hw2 : (match (objGet afields "STATE_NAME").getD Json.null with
        | Json.null => true
        | Json.str _ => true
        | _ => false) = true := hw
    cases hst : (objGet afields "STATE_NAME").getD .null with
    | bool b =>
      rw [hst] at hw2
      simp at hw2
    | num n =>
      rw [hst] at hw2
      simp at hw2
    | arr l =>
      rw [hst] at hw2
      simp at hw2
    | obj l =>
      rw [hst] at hw2
      simp at hw2
    | null =>
      refine ⟨acc, ?_, ?_⟩
      · simp [aggStep, hga, hst, truthy]
      · intro k
        have hc : contribOpt k e = none := by
          simp [contribOpt, hga, hst]
        rw [hc, combineOpt_none_right]
    | str st =>
      by_cases hse : st = ""
      · subst hse
        refine ⟨acc, ?_, ?_⟩
        · simp [aggStep, hga, hst, truthy]
        · intro k
          have hc : contribOpt k e = none := by
            by_cases hk : k = ""
            · subst hk
              simp [contribOpt, hga, hst]
            · simp only [contribOpt, hga, hst]
              rw [if_neg]
              simp only [Bool.and_eq_true, not_and]
              intro hb
              have : ("" : String) = k := by
                have hb2 : Json.beq (Json.str "") (Json.str k) = true := hb
                have := Json.eq_of_beq hb2
                injection this
              exact absurd this.symm hk
          rw [hc, combineOpt_none_right]
      · have htr : truthy (Json.str st) = true := by
          simp [truthy]
          exact hse
        cases hnum : numericValue ((objGet afields "POPULATION").getD (.num 0)) with
        | some v =>
          refine ⟨pyDictAdd acc (.str st) v, ?_, ?_⟩
          · simp [aggStep, hga, hst, htr, hnum, hashable]
          · intro k
            rw [pyLookup_pyDictAdd]
            by_cases hk : k = st
            · subst hk
              rw [if_pos rfl]
              have hc : contribOpt k e = some v := by
                simp only [contribOpt, hga, hst]
                rw [if_pos]
                · cases hpop : objGet afields "POPULATION" with
                  | none =>
                    rw [hpop] at hnum
                    simp [numericValue] at hnum
                    rw [← hnum]
                  | some w =>
                    rw [hpop] at hnum
                    simp only [Option.getD_some] at hnum
                    exact hnum
                · simp only [Bool.and_eq_true]
                  constructor
                  · exact Json.beq_refl _
                  · simp
                    exact hse
              rw [hc, combineOpt_some_right]
            · rw [if_neg hk]
              have hc : contribOpt k e = none := by
                simp only [contribOpt, hga, hst]
                rw [if_neg]
                simp only [Bool.and_eq_true, not_and]
                intro hb
                have hb2 : Json.beq (Json.str st) (Json.str k) = true := hb
                have := Json.eq_of_beq hb2
                injection this with h3
                exact absurd h3.symm hk
              rw [hc, combineOpt_none_right]
        | none =>
          refine ⟨acc, ?_, ?_⟩
          · simp [aggStep, hga, hst, htr, hnum]
          · intro k
            have hc : contribOpt k e = none := by
              simp only [contribOpt, hga, hst]
              by_cases hcond : (((Json.str st : Json) == Json.str k) && (k != "")) = true
              · rw [if_pos hcond]
                cases hpop : objGet afields "POPULATION" with
                | none =>
                  rw [hpop] at hnum
                  simp [numericValue] at hnum
                | some w =>
                  rw [hpop] at hnum
                  simp only [Option.getD_some] at hnum
                  exact hnum
              · rw [if_neg hcond]
            rw [hc, combineOpt_none_right]

theorem aggLoop_ok (elems : List Json) :
    ∀ acc : List (Json × Int),
      (∀ e ∈ elems, wfElem e = true) →
      ∃ m, aggLoop elems acc = .ok m ∧
        ∀ k : String, pyLookup m (.str k)
          = combineOpt (pyLookup acc (.str k)) (specSum k elems) := by
  induction elems with
  | nil =>
    intro acc hw
    exact ⟨acc, rfl, fun k => (combineOpt_none_right _).symm⟩
  | cons e rest ih =>
    intro acc hw
    obtain ⟨acc2, hstep, hinv⟩ := aggStep_wf acc e (hw e (List.mem_cons_self e rest))
    obtain ⟨m, hloop, hminv⟩ := ih acc2 (fun x hx => hw x (List.mem_cons_of_mem e hx))
    refine ⟨m, ?_, ?_⟩
    · show (match aggStep acc e with
            | .ok acc2 => aggLoop rest acc2
            | .error err => .error err) = .ok m
      rw [hstep]
      exact hloop
    · intro k
      rw [hminv k, hinv k]
      show combineOpt (combineOpt (pyLookup acc (.str k)) (contribOpt k e)) (specSum k rest)
        = combineOpt (pyLookup acc (.str k)) (combineOpt (contribOpt k e) (specSum k rest))
      exact combineOpt_assoc _ _ _

/-- C3 (amended). For every list whose elements are objects whose
`attributes` value (an empty object when the field is missing) is an object
with an absent, `None`, or string `STATE_NAME`, `aggregate_by_state` never
raises and returns exactly the per-key sums: elements with a missing or
empty key are skipped, a missing value field contributes zero to its key,
and an element with a non-numeric value field is skipped outright (it
creates no zero entry for its key); on other inputs the function can raise
(`AttributeError` on a non-object element, for instance). -/
theorem aggregate_by_state_spec (data : List Json) (hw : ∀ e ∈ data, wfElem e = true) :
    ∃ m, aggregate_by_state data = .ok m ∧
      ∀ k : String, pyLookup m (.str k) = specSum k data := by
  obtain ⟨m, h1, h2⟩ := aggLoop_ok data [] hw
  refine ⟨m, h1, fun k => ?_⟩
  rw [h2 k]
  rfl

/-- Witness for C3: the spec's California/Texas batch, extended with a
missing-value element and an element with an empty key. -/
theorem aggregate_by_state_spec_witness :
    ∃ m, aggregate_by_state
        [ .obj [("attributes", .obj [("STATE_NAME", .str "California"), ("POPULATION", .num 1000000)])],
          .obj [("attributes", .obj [("STATE_NAME", .str "California"), ("POPULATION", .num 2000000)])],
          .obj [("attributes", .obj [("STATE_NAME", .str "Texas"), ("POPULATION", .num 500000)])],
          .obj [("attributes", .obj [("STATE_NAME", .str "Nowhere")])],
          .obj [("attributes", .obj [("STATE_NAME", .str "")])] ]
      = .ok m ∧
      ∀ k : String, pyLookup m (.str k) = specSum k
        [ .obj [("attributes", .obj [("STATE_NAME", .str "California"), ("POPULATION", .num 1000000)])],
          .obj [("attributes", .obj [("STATE_NAME", .str "California"), ("POPULATION", .num 2000000)])],
          .obj [("attributes", .obj [("STATE_NAME", .str "Texas"), ("POPULATION", .num 500000)])],
          .obj [("attributes", .obj [("STATE_NAME", .str "Nowhere")])],
          .obj [("attributes", .obj [("STATE_NAME", .str "")])] ] :=
  aggregate_by_state_spec _ (by decide)

/-- Counterexample for C3 as stated: a non-object element makes
`aggregate_by_state` raise `AttributeError` rather than being tolerated, and
an element whose `POPULATION` is the non-numeric string "abc" is skipped
outright — the result is the empty mapping, not a zero entry for its key
"X". -/
theorem aggregate_by_state_cex :
    aggregate_by_state [.str "junk"] = .error .attrError ∧
    aggregate_by_state
        [.obj [("attributes", .obj [("STATE_NAME", .str "X"), ("POPULATION", .str "abc")])]]
      = .ok [] ∧
    pyLookup [] (.str "X") = none := by
  decide

/-- The valid files of the current batch, in discovery order. -/
def validOf (s : PState) : List PFile :=
  (find_demographic_files s).filter (fun f => validate_json_file f.content)

/-- The invalid files of the current batch, in discovery order. -/
def errOf (s : PState) : List PFile :=
  (find_demographic_files s).filter (fun f => !validate_json_file f.content)

theorem validate_content_shape (c : Option Json) (h : validate_json_file c = true) :
    ∃ elems, c = some (.arr elems) := by
  cases c with
  | none => simp [validate_json_file] at h
  | some j =>
    cases j with
    | arr items => exact ⟨items, rfl⟩
    | null => simp [validate_json_file] at h
    | bool b => simp [validate_json_file] at h
    | num n => simp [validate_json_file] at h
    | str t => simp [validate_json_file] at h
    | obj f => simp [validate_json_file] at h

theorem maxLoop_ok (rest : List PFile) :
    ∀ (best : PFile) (bd : DateTime),
      extract_timestamp best.name = .ok bd →
      (∀ f ∈ rest, ∃ d, extract_timestamp f.name = .ok d) →
      ∃ r rd, maxLoop rest best (dtKey bd) = .ok r ∧
        extract_timestamp r.name = .ok rd ∧
        (r = best ∨ r ∈ rest) ∧
        dtKey bd ≤ dtKey rd ∧
        ∀ f ∈ rest, ∀ d, extract_timestamp f.name = .ok d → dtKey d ≤ dtKey rd := by
  induction rest with
  | nil =>
    intro best bd hb _
    exact ⟨best, bd, rfl, hb, .inl rfl, le_refl _, by simp⟩
  | cons f t ih =>
    intro best bd hb hall
    obtain ⟨d, hd⟩ := hall f (List.mem_cons_self f t)
    have hallt : ∀ g ∈ t, ∃ d2, extract_timestamp g.name = .ok d2 :=
      fun g hg => hall g (List.mem_cons_of_mem f hg)
    by_cases hlt : dtKey bd < dtKey d
    · have heq : maxLoop (f :: t) best (dtKey bd) = maxLoop t f (dtKey d) := by
        show (match extract_timestamp f.name with
              | Except.error e => Except.error e
              | Except.ok d2 => if dtKey bd < dtKey d2 then maxLoop t f (dtKey d2)
                                else maxLoop t best (dtKey bd)) = _
        rw [hd]
        show (if dtKey bd < dtKey d then maxLoop t f (dtKey d)
              else maxLoop t best (dtKey bd)) = _
        rw [if_pos hlt]
      obtain ⟨r, rd, h1, h2, h3, h4, h5⟩ := ih f d hd hallt
      refine ⟨r, rd, by rw [heq]; exact h1, h2, ?_, ?_, ?_⟩
      · rcases h3 with rfl | hmem
        · exact .inr (List.mem_cons_self r t)
        · exact .inr (List.mem_cons_of_mem f hmem)
      · exact le_trans (le_of_lt hlt) h4
      · intro g hg d2 hd2
        rcases List.mem_cons.mp hg with rfl | hgt
        · rw [hd] at hd2
          injection hd2 with h6
          rw [← h6]
          exact h4
        · exact h5 g hgt d2 hd2
    · have heq : maxLoop (f :: t) best (dtKey bd) = maxLoop t best (dtKey bd) := by
        show (match extract_timestamp f.name with
              | Except.error e => Except.error e
              | Except.ok d2 => if dtKey bd < dtKey d2 then maxLoop t f (dtKey d2)
                                else maxLoop t best (dtKey bd)) = _
        rw [hd]
        show (if dtKey bd < dtKey d then maxLoop t f (dtKey d)
              else maxLoop t best (dtKey bd)) = _
        rw [if_neg hlt]
      obtain ⟨r, rd, h1, h2, h3, h4, h5⟩ := ih best bd hb hallt
      refine ⟨r, rd, by rw [heq]; exact h1, h2, ?_, h4, ?_⟩
      · rcases h3 with rfl | hmem
        · exact .inl rfl
        · exact .inr (List.mem_cons_of_mem f hmem)
      · intro g hg d2 hd2
        rcases List.mem_cons.mp hg with rfl | hgt
        · rw [hd] at hd2
          injection hd2 with h6
          rw [← h6]
          exact le_trans (Nat.le_of_not_lt hlt) h4
        · exact h5 g hgt d2 hd2

theorem find_latest_ok (files : List PFile)
    (hne : files ≠ [])
    (hall : ∀ f ∈ files, ∃ d, extract_timestamp f.name = .ok d) :
    ∃ latest ld, find_latest_file files = .ok (some latest) ∧
      extract_timestamp latest.name = .ok ld ∧
      latest ∈ files ∧
      ∀ f ∈ files, ∀ d, extract_timestamp f.name = .ok d → dtKey d ≤ dtKey ld := by
  cases files with
  | nil => exact absurd rfl hne
  | cons f rest =>
    obtain ⟨d, hd⟩ := hall f (List.mem_cons_self f rest)
    have heq : find_latest_file (f :: rest) = (maxLoop rest f (dtKey d)).map some := by
      show (match extract_timestamp f.name with
            | Except.error e => Except.error e
            | Except.ok d2 => (maxLoop rest f (dtKey d2)).map some) = _
      rw [hd]
    obtain ⟨r, rd, h1, h2, h3, h4, h5⟩ :=
      maxLoop_ok rest f d hd (fun g hg => hall g (List.mem_cons_of_mem f hg))
    refine ⟨r, rd, by rw [heq, h1]; rfl, h2, ?_, ?_⟩
    · rcases h3 with rfl | hmem
      · exact List.mem_cons_self r rest
      · exact List.mem_cons_of_mem f hmem
    · intro g hg d2 hd2
      rcases List.mem_cons.mp hg with rfl | hgt
      · rw [hd] at hd2
        injection hd2 with h6
        rw [← h6]
        exact h4
      · exact h5 g hgt d2 hd2

theorem removeFirst_of_mem :
    ∀ (l : List PFile) (f : PFile),
      (l.map PFile.name).Nodup → f ∈ l →
      removeFirst l f.name = some (f, l.filter (fun g => g.name != f.name)) := by
  intro l
  induction l with
  | nil =>
    intro f _ hm
    simp at hm
  | cons a t ih =>
    intro f hnd hm
    rw [List.map_cons, List.nodup_cons] at hnd
    show (if a.name == f.name then some (a, t)
          else (removeFirst t f.name).map (fun p => (p.1, a :: p.2)))
        = some (f, (a :: t).filter (fun g => g.name != f.name))
    by_cases hin : (a.name == f.name) = true
    · have haf : a = f := by
        rcases List.mem_cons.mp hm with rfl | hmt
        · rfl
        · exfalso
          apply hnd.1
          have : a.name = f.name := by
            have := hin
            simp at this
            exact this
          rw [this]
          exact List.mem_map_of_mem PFile.name hmt
      subst haf
      rw [if_pos hin]
      have hft : t.filter (fun g => g.name != a.name) = t := by
        rw [List.filter_eq_self]
        intro g hg
        have hgn : g.name ≠ a.name := by
          intro he
          apply hnd.1
          rw [← he]
          exact List.mem_map_of_mem PFile.name hg
        simp [hgn]
      rw [List.filter_cons]
      simp only [bne_self_eq_false, Bool.false_eq_true, if_false, hft]
    · rw [if_neg hin]
      have hmt : f ∈ t := by
        rcases List.mem_cons.mp hm with rfl | hmt
        · exact absurd (by simp) hin
        · exact hmt
      rw [ih f hnd.2 hmt]
      simp only [Option.map_some']
      have han : (a.name != f.name) = true := by
        simp
        intro he
        exact hin (by simp [he])
      rw [List.filter_cons, if_pos han]

theorem moveOne_processed (s : PState) (f : PFile)
    (hnd : (s.staging.map PFile.name).Nodup) (hm : f ∈ s.staging) :
    moveOne s f true
      = { s with staging := s.staging.filter (fun g => g.name != f.name),
                 processed := s.processed ++ [f] } := by
  unfold moveOne
  rw [removeFirst_of_mem s.staging f hnd hm]
  rfl

theorem moveOne_error (s : PState) (f : PFile)
    (hnd : (s.staging.map PFile.name).Nodup) (hm : f ∈ s.staging) :
    moveOne s f false
      = { s with staging := s.staging.filter (fun g => g.name != f.name),
                 errorDir := s.errorDir ++ [f] } := by
  unfold moveOne
  rw [removeFirst_of_mem s.staging f hnd hm]
  rfl

theorem nodup_staging_filter (s : PState) (p : PFile → Bool)
    (hnd : (s.staging.map PFile.name).Nodup) :
    ((s.staging.filter p).map PFile.name).Nodup :=
  List.Nodup.sublist (List.Sublist.map PFile.name (List.filter_sublist _)) hnd

theorem bne_name_comm (a b : String) : (a != b) = (b != a) := by
  by_cases h : a = b
  · subst h
    rfl
  · have h1 : (a == b) = false := beq_false_of_ne h
    have h2 : (b == a) = false := beq_false_of_ne (Ne.symm h)
    show (!(a == b)) = (!(b == a))
    rw [h1, h2]

theorem foldMove_processed :
    ∀ (fl : List PFile) (s : PState),
      (s.staging.map PFile.name).Nodup →
      (fl.map PFile.name).Nodup →
      (∀ f ∈ fl, f ∈ s.staging) →
      fl.foldl (fun st f => moveOne st f true) s
        = { s with
            staging := s.staging.filter (fun g => fl.all (fun f => f.name != g.name)),
            processed := s.processed ++ fl } := by
  intro fl
  induction fl with
  | nil =>
    intro s _ _ _
    have h1 : s.staging.filter
          (fun g => ([] : List PFile).all (fun f => f.name != g.name)) = s.staging :=
      List.filter_eq_self.mpr (fun _ _ => rfl)
    show s = _
    rw [h1, List.append_nil]
  | cons f t ih =>
    intro s hnds hndf hmem
    rw [List.map_cons, List.nodup_cons] at hndf
    simp only [List.foldl_cons]
    rw [moveOne_processed s f hnds (hmem f (List.mem_cons_self f t))]
    have hmemt : ∀ g ∈ t, g ∈ s.staging.filter (fun g2 => g2.name != f.name) := by
      intro g hg
      rw [List.mem_filter]
      refine ⟨hmem g (List.mem_cons_of_mem f hg), ?_⟩
      have hgn : g.name ≠ f.name := by
        intro he
        apply hndf.1
        rw [← he]
        exact List.mem_map_of_mem PFile.name hg
      simp [hgn]
    rw [ih { s with staging := s.staging.filter (fun g2 => g2.name != f.name),
                    processed := s.processed ++ [f] }
          (nodup_staging_filter s _ hnds) hndf.2 hmemt]
    have hstag : (s.staging.filter (fun g2 => g2.name != f.name)).filter
          (fun g => t.all (fun f2 => f2.name != g.name))
        = s.staging.filter (fun g => (f :: t).all (fun f2 => f2.name != g.name)) := by
      rw [List.filter_filter]
      apply List.filter_congr
      intro x _
      rw [List.all_cons, Bool.and_comm, bne_name_comm x.name f.name]
    show PState.mk
        ((s.staging.filter (fun g2 => g2.name != f.name)).filter
          (fun g => t.all (fun f2 => f2.name != g.name)))
        ((s.processed ++ [f]) ++ t) s.errorDir s.db s.log
      = PState.mk
        (s.staging.filter (fun g => (f :: t).all (fun f2 => f2.name != g.name)))
        (s.processed ++ f :: t) s.errorDir s.db s.log
    rw [hstag, List.append_assoc, List.singleton_append]

theorem foldMove_error :
    ∀ (fl : List PFile) (s : PState),
      (s.staging.map PFile.name).Nodup →
      (fl.map PFile.name).Nodup →
      (∀ f ∈ fl, f ∈ s.staging) →
      fl.foldl (fun st f => moveOne st f false) s
        = { s with
            staging := s.staging.filter (fun g => fl.all (fun f => f.name != g.name)),
            errorDir := s.errorDir ++ fl } := by
  intro fl
  induction fl with
  | nil =>
    intro s _ _ _
    have h1 : s.staging.filter
          (fun g => ([] : List PFile).all (fun f => f.name != g.name)) = s.staging :=
      List.filter_eq_self.mpr (fun _ _ => rfl)
    show s = _
    rw [h1, List.append_nil]
  | cons f t ih =>
    intro s hnds hndf hmem
    rw [List.map_cons, List.nodup_cons] at hndf
    simp only [List.foldl_cons]
    rw [moveOne_error s f hnds (hmem f (List.mem_cons_self f t))]
    have hmemt : ∀ g ∈ t, g ∈ s.staging.filter (fun g2 => g2.name != f.name) := by
      intro g hg
      rw [List.mem_filter]
      refine ⟨hmem g (List.mem_cons_of_mem f hg), ?_⟩
      have hgn : g.name ≠ f.name := by
        intro he
        apply hndf.1
        rw [← he]
        exact List.mem_map_of_mem PFile.name hg
      simp [hgn]
    rw [ih { s with staging := s.staging.filter (fun g2 => g2.name != f.name),
                    errorDir := s.errorDir ++ [f] }
          (nodup_staging_filter s _ hnds) hndf.2 hmemt]
    have hstag : (s.staging.filter (fun g2 => g2.name != f.name)).filter
          (fun g => t.all (fun f2 => f2.name != g.name))
        = s.staging.filter (fun g => (f :: t).all (fun f2 => f2.name != g.name)) := by
      rw [List.filter_filter]
      apply List.filter_congr
      intro x _
      rw [List.all_cons, Bool.and_comm, bne_name_comm x.name f.name]
    show PState.mk
        ((s.staging.filter (fun g2 => g2.name != f.name)).filter
          (fun g => t.all (fun f2 => f2.name != g.name)))
        s.processed ((s.errorDir ++ [f]) ++ t) s.db s.log
      = PState.mk
        (s.staging.filter (fun g => (f :: t).all (fun f2 => f2.name != g.name)))
        s.processed (s.errorDir ++ f :: t) s.db s.log
    rw [hstag, List.append_assoc, List.singleton_append]

theorem archive_files_spec (s : PState) (valid errf : List PFile)
    (hnd : (s.staging.map PFile.name).Nodup)
    (hvnd : (valid.map PFile.name).Nodup)
    (hend : (errf.map PFile.name).Nodup)
    (hv : ∀ f ∈ valid, f ∈ s.staging)
    (he : ∀ f ∈ errf, f ∈ s.staging)
    (hdisj : ∀ f ∈ errf, ∀ g ∈ valid, f.name ≠ g.name) :
    archive_files s valid errf
      = { s with
          staging := s.staging.filter (fun g =>
            valid.all (fun f => f.name != g.name) && errf.all (fun f => f.name != g.name)),
          processed := s.processed ++ valid,
          errorDir := s.errorDir ++ errf } := by
  unfold archive_files
  rw [foldMove_processed valid s hnd hvnd hv]
  have hmeme : ∀ f ∈ errf,
      f ∈ s.staging.filter (fun g => valid.all (fun f2 => f2.name != g.name)) := by
    intro f hf
    rw [List.mem_filter]
    refine ⟨he f hf, ?_⟩
    rw [List.all_eq_true]
    intro g hg
    have hne := hdisj f hf g hg
    simp only [bne_iff_ne, ne_eq]
    intro he2
    exact hne he2.symm
  rw [foldMove_error errf _ (nodup_staging_filter s _ hnd) hend hmeme]
  have hstag : (s.staging.filter (fun g => valid.all (fun f => f.name != g.name))).filter
        (fun g => errf.all (fun f => f.name != g.name))
      = s.staging.filter (fun g =>
          valid.all (fun f => f.name != g.name) && errf.all (fun f => f.name != g.name)) := by
    rw [List.filter_filter]
    apply List.filter_congr
    intro x _
    rw [Bool.and_comm]
  show PState.mk
      ((s.staging.filter (fun g => valid.all (fun f => f.name != g.name))).filter
        (fun g => errf.all (fun f => f.name != g.name)))
      (s.processed ++ valid) (s.errorDir ++ errf) s.db s.log
    = _
  rw [hstag]

theorem find_demographic_files_log (s : PState) (m : String) :
    find_demographic_files (log_processing s m) = find_demographic_files s := rfl

theorem log_processing_staging (s : PState) (m : String) :
    (log_processing s m).staging = s.staging := rfl

theorem log_processing_processed (s : PState) (m : String) :
    (log_processing s m).processed = s.processed := rfl

theorem log_processing_errorDir (s : PState) (m : String) :
    (log_processing s m).errorDir = s.errorDir := rfl

theorem log_processing_db (s : PState) (m : String) :
    (log_processing s m).db = s.db := rfl

theorem foldl_log (l : List PFile) (g : PFile → String) :
    ∀ s : PState,
      l.foldl (fun st f => log_processing st (g f)) s = { s with log := s.log ++ l.map g } := by
  induction l with
  | nil =>
    intro s
    show s = _
    rw [List.map_nil, List.append_nil]
  | cons a t ih =>
    intro s
    simp only [List.foldl_cons]
    rw [ih]
    show PState.mk s.staging s.processed s.errorDir s.db ((s.log ++ [g a]) ++ t.map g)
      = PState.mk s.staging s.processed s.errorDir s.db (s.log ++ (g a :: t.map g))
    rw [List.append_assoc, List.singleton_append]

theorem validOf_sublist (s : PState) : List.Sublist (validOf s) s.staging :=
  List.Sublist.trans (List.filter_sublist _) (List.filter_sublist _)

theorem errOf_sublist (s : PState) : List.Sublist (errOf s) s.staging :=
  List.Sublist.trans (List.filter_sublist _) (List.filter_sublist _)

theorem valid_err_disjoint (s : PState) (hnd : (s.staging.map PFile.name).Nodup) :
    ∀ f ∈ errOf s, ∀ g ∈ validOf s, f.name ≠ g.name := by
  intro f hf g hg he
  have hf1 := List.mem_filter.mp hf
  have hg1 := List.mem_filter.mp hg
  have hfs : f ∈ s.staging := (List.mem_filter.mp hf1.1).1
  have hgs : g ∈ s.staging := (List.mem_filter.mp hg1.1).1
  have hfg : f = g := List.inj_on_of_nodup_map hnd hfs hgs he
  subst hfg
  rw [hg1.2] at hf1
  simp at hf1

/-- The staging directory after a full archive pass: exactly the files whose
names do not match the discovery pattern remain. -/
theorem staging_filter_demo (s : PState) (hnd : (s.staging.map PFile.name).Nodup) :
    s.staging.filter (fun g =>
        (validOf s).all (fun f => f.name != g.name)
          && (errOf s).all (fun f => f.name != g.name))
      = s.staging.filter (fun f => !isDemographicFilename f.name) := by
  apply List.filter_congr
  intro x hx
  by_cases hdemo : isDemographicFilename x.name = true
  · have hxf : x ∈ find_demographic_files s := List.mem_filter.mpr ⟨hx, hdemo⟩
    by_cases hval : validate_json_file x.content = true
    · have hxv : x ∈ validOf s := List.mem_filter.mpr ⟨hxf, hval⟩
      have h1 : (validOf s).all (fun f => f.name != x.name) = false := by
        cases hall : (validOf s).all (fun f => f.name != x.name)
        · rfl
        · have := List.all_eq_true.mp hall x hxv
          simp at this
      rw [h1, hdemo]
      rfl
    · have hvf : validate_json_file x.content = false := by
        cases hc : validate_json_file x.content
        · rfl
        · exact absurd hc hval
      have hxe : x ∈ errOf s := List.mem_filter.mpr ⟨hxf, by simp [hvf]⟩
      have h2 : (errOf s).all (fun f => f.name != x.name) = false := by
        cases hall : (errOf s).all (fun f => f.name != x.name)
        · rfl
        · have := List.all_eq_true.mp hall x hxe
          simp at this
      rw [h2, hdemo, Bool.and_false]
      rfl
  · have hdf : isDemographicFilename x.name = false := by
      cases hc : isDemographicFilename x.name
      · rfl
      · exact absurd hc hdemo
    have hnotin : ∀ S : List PFile, (∀ f ∈ S, f ∈ find_demographic_files s) →
        S.all (fun f => f.name != x.name) = true := by
      intro S hS
      rw [List.all_eq_true]
      intro f hf
      have hfst : f ∈ s.staging := (List.mem_filter.mp (hS f hf)).1
      have hfx : f.name ≠ x.name := by
        intro he
        have hfe : f = x := List.inj_on_of_nodup_map hnd hfst hx he
        subst hfe
        have hdt : isDemographicFilename f.name = true := (List.mem_filter.mp (hS f hf)).2
        rw [hdf] at hdt
        cases hdt
      simp [hfx]
    rw [hnotin (validOf s) (fun f hf => (List.mem_filter.mp hf).1),
        hnotin (errOf s) (fun f hf => (List.mem_filter.mp hf).1), hdf]
    rfl

/-- Field-level description of archiving a whole batch from any state whose
staging directory is that of `s`. -/
theorem archive_fields (s s2 : PState)
    (hnd : (s.staging.map PFile.name).Nodup)
    (hstag : s2.staging = s.staging) :
    (archive_files s2 (validOf s) (errOf s)).staging
        = s.staging.filter (fun f => !isDemographicFilename f.name) ∧
    (archive_files s2 (validOf s) (errOf s)).processed = s2.processed ++ validOf s ∧
    (archive_files s2 (validOf s) (errOf s)).errorDir = s2.errorDir ++ errOf s ∧
    (archive_files s2 (validOf s) (errOf s)).db = s2.db := by
  have hnd2 : (s2.staging.map PFile.name).Nodup := by rw [hstag]; exact hnd
  have harch := archive_files_spec s2 (validOf s) (errOf s) hnd2
    (List.Nodup.sublist (List.Sublist.map PFile.name (validOf_sublist s)) hnd)
    (List.Nodup.sublist (List.Sublist.map PFile.name (errOf_sublist s)) hnd)
    (fun f hf => by rw [hstag]; exact (validOf_sublist s).subset hf)
    (fun f hf => by rw [hstag]; exact (errOf_sublist s).subset hf)
    (valid_err_disjoint s hnd)
  rw [harch]
  refine ⟨?_, rfl, rfl, rfl⟩
  show s2.staging.filter _ = _
  rw [hstag]
  exact staging_filter_demo s hnd

theorem processBody_success (s : PState) (now : Nat)
    (hnd : (s.staging.map PFile.name).Nodup)
    (hvne : validOf s ≠ [])
    (latest : PFile) (elems : List Json) (aggs : List (Json × Int))
    (hlatest : find_latest_file (validOf s) = .ok (some latest))
    (hcontent : latest.content = some (.arr elems))
    (haggs : aggregate_by_state elems = .ok aggs) :
    ∃ s2, process_all_data s now = (true, s2) ∧
      s2.staging = s.staging.filter (fun f => !isDemographicFilename f.name) ∧
      s2.processed = s.processed ++ validOf s ∧
      s2.errorDir = s.errorDir ++ errOf s ∧
      s2.db = (update_database aggs latest.name now s.db).2 := by
  have hFne : find_demographic_files s ≠ [] := by
    intro h
    apply hvne
    show (find_demographic_files s).filter _ = []
    rw [h]
    rfl
  have hFisEmpty : (find_demographic_files s).isEmpty = false :=
    List.isEmpty_eq_false.mpr hFne
  have hVisEmpty :
      ((find_demographic_files s).filter (fun f => validate_json_file f.content)).isEmpty
        = false :=
    List.isEmpty_eq_false.mpr hvne
  have hlatest2 :
      find_latest_file ((find_demographic_files s).filter
        (fun f => validate_json_file f.content)) = .ok (some latest) := hlatest
  simp only [process_all_data, processBody, find_demographic_files_log, hFisEmpty,
    Bool.false_eq_true, if_false, hVisEmpty, foldl_log, hlatest2, hcontent, haggs]
  refine ⟨_, rfl, ?_, ?_, ?_, ?_⟩
  · simp only [log_processing_staging]
    split <;>
      (simp only [log_processing_staging]
       refine (archive_fields s _ hnd ?_).1
       rfl)
  · simp only [log_processing_processed]
    split <;>
      (simp only [log_processing_processed]
       refine (archive_fields s _ hnd ?_).2.1
       rfl)
  · simp only [log_processing_errorDir]
    split <;>
      (simp only [log_processing_errorDir]
       refine (archive_fields s _ hnd ?_).2.2.1
       rfl)
  · simp only [log_processing_db]
    split <;>
      (simp only [log_processing_db]
       refine (archive_fields s _ hnd ?_).2.2.2
       rfl)

theorem archive_fields_noValid (s s2 : PState)
    (hnd : (s.staging.map PFile.name).Nodup)
    (hstag : s2.staging = s.staging)
    (hv : validOf s = []) :
    (archive_files s2 [] (errOf s)).staging
        = s.staging.filter (fun f => !isDemographicFilename f.name) ∧
    (archive_files s2 [] (errOf s)).processed = s2.processed ∧
    (archive_files s2 [] (errOf s)).errorDir = s2.errorDir ++ errOf s ∧
    (archive_files s2 [] (errOf s)).db = s2.db := by
  have h := archive_fields s s2 hnd hstag
  rw [hv] at h
  obtain ⟨h1, h2, h3, h4⟩ := h
  rw [List.append_nil] at h2
  exact ⟨h1, h2, h3, h4⟩

theorem process_all_data_no_valid (s : PState) (now : Nat)
    (hnd : (s.staging.map PFile.name).Nodup)
    (hv : validOf s = []) :
    ∃ s2, process_all_data s now = (false, s2) ∧
      s2.staging = s.staging.filter (fun f => !isDemographicFilename f.name) ∧
      s2.processed = s.processed ∧
      s2.errorDir = s.errorDir ++ errOf s ∧
      s2.db = s.db := by
  by_cases hF : find_demographic_files s = []
  · have hFE : (find_demographic_files s).isEmpty = true := by rw [hF]; rfl
    simp only [process_all_data, processBody, find_demographic_files_log, hFE, if_true]
    refine ⟨_, rfl, ?_, rfl, ?_, rfl⟩
    · simp only [log_processing_staging]
      symm
      rw [List.filter_eq_self]
      intro f hf
      have hdf : isDemographicFilename f.name = false := by
        cases hc : isDemographicFilename f.name
        · rfl
        · exfalso
          have hm : f ∈ find_demographic_files s := List.mem_filter.mpr ⟨hf, hc⟩
          rw [hF] at hm
          cases hm
      simp [hdf]
    · have he : errOf s = [] := by
        show (find_demographic_files s).filter _ = []
        rw [hF]
        rfl
      simp only [log_processing_errorDir]
      rw [he, List.append_nil]
  · have hFE : (find_demographic_files s).isEmpty = false := List.isEmpty_eq_false.mpr hF
    have hVE : ((find_demographic_files s).filter
        (fun f => validate_json_file f.content)).isEmpty = true := by
      have hv2 : (find_demographic_files s).filter (fun f => validate_json_file f.content)
          = [] := hv
      rw [hv2]
      rfl
    simp only [process_all_data, processBody, find_demographic_files_log, hFE,
      Bool.false_eq_true, if_false, hVE, if_true, foldl_log]
    refine ⟨_, rfl, ?_, ?_, ?_, ?_⟩
    · refine (archive_fields_noValid s _ hnd ?_ hv).1
      rfl
    · refine (archive_fields_noValid s _ hnd ?_ hv).2.1
      rfl
    · refine (archive_fields_noValid s _ hnd ?_ hv).2.2.1
      rfl
    · refine (archive_fields_noValid s _ hnd ?_ hv).2.2.2
      rfl

/-- A file whose (already validated) array content aggregates without an
exception. -/
def aggOkFile (f : PFile) : Bool :=
  match f.content with
  | some (.arr elems) => (aggregate_by_state elems).isOk
  | _ => true

/-- C1 (amended). For every batch of staged files with distinct names in
which every valid file carries a calendar-valid embedded timestamp and
aggregates without an exception: when the batch has no valid files,
`process_all_data` archives the invalid ones to the error directory and
returns false; otherwise it selects the single valid file with the latest
embedded timestamp, updates the store using only that file's aggregation,
moves every valid file (selected or not) to the processed archive and every
invalid file to the error archive, and returns true. Without the two
batch conditions the cycle can abort with `false`, archiving nothing (see
the counterexample). -/
theorem process_all_data_latest_wins (s : PState) (now : Nat)
    (hnd : (s.staging.map PFile.name).Nodup)
    (hts : (validOf s).all (fun f => (extract_timestamp f.name).isOk) = true)
    (hagg : (validOf s).all aggOkFile = true) :
    (validOf s = [] → ∃ s2, process_all_data s now = (false, s2) ∧
      s2.staging = s.staging.filter (fun f => !isDemographicFilename f.name) ∧
      s2.processed = s.processed ∧
      s2.errorDir = s.errorDir ++ errOf s ∧
      s2.db = s.db) ∧
    (validOf s ≠ [] → ∃ latest ld elems aggs s2,
      find_latest_file (validOf s) = .ok (some latest) ∧
      latest ∈ validOf s ∧
      extract_timestamp latest.name = .ok ld ∧
      (∀ f ∈ validOf s, ∀ d, extract_timestamp f.name = .ok d → dtKey d ≤ dtKey ld) ∧
      latest.content = some (.arr elems) ∧
      aggregate_by_state elems = .ok aggs ∧
      process_all_data s now = (true, s2) ∧
      s2.db = (update_database aggs latest.name now s.db).2 ∧
      s2.staging = s.staging.filter (fun f => !isDemographicFilename f.name) ∧
      s2.processed = s.processed ++ validOf s ∧
      s2.errorDir = s.errorDir ++ errOf s) := by
  constructor
  · intro hv
    exact process_all_data_no_valid s now hnd hv
  · intro hvne
    have hts2 : ∀ f ∈ validOf s, ∃ d, extract_timestamp f.name = .ok d := by
      intro f hf
      have h1 := List.all_eq_true.mp hts f hf
      cases h2 : extract_timestamp f.name with
      | error e =>
        rw [h2] at h1
        simp [Except.isOk, Except.toBool] at h1
      | ok d => exact ⟨d, rfl⟩
    obtain ⟨latest, ld, hlat, hld, hmem, hbound⟩ := find_latest_ok (validOf s) hvne hts2
    have hvalid : validate_json_file latest.content = true := (List.mem_filter.mp hmem).2
    obtain ⟨elems, hcontent⟩ := validate_content_shape latest.content hvalid
    have haggok := List.all_eq_true.mp hagg latest hmem
    rw [aggOkFile, hcontent] at haggok
    have haggok2 : (aggregate_by_state elems).isOk = true := haggok
    obtain ⟨aggs, haggs⟩ : ∃ aggs, aggregate_by_state elems = .ok aggs := by
      cases h2 : aggregate_by_state elems with
      | error e =>
        rw [h2] at haggok2
        simp [Except.isOk, Except.toBool] at haggok2
      | ok m => exact ⟨m, rfl⟩
    obtain ⟨s2, h1, h2, h3, h4, h5⟩ :=
      processBody_success s now hnd hvne latest elems aggs hlat hcontent haggs
    exact ⟨latest, ld, elems, aggs, s2, hlat, hmem, hld, hbound, hcontent, haggs,
      h1, h5, h2, h3, h4⟩

/-- Concrete batch for the C1 witness: a newer and an older valid file, an
invalid file, and a file whose name the discovery pattern rejects. -/
def w1State : PState :=
  ⟨[⟨"demographic_data_20260124_153045.json",
      some (.arr [.obj [("attributes",
        .obj [("STATE_NAME", .str "California"), ("POPULATION", .num 1000000)])]])⟩,
    ⟨"demographic_data_20260101_000000.json",
      some (.arr [.obj [("attributes",
        .obj [("STATE_NAME", .str "Texas"), ("POPULATION", .num 500000)])]])⟩,
    ⟨"demographic_data_20260102_000000.json", some (.str "nope")⟩,
    ⟨"notes.txt", none⟩], [], [], [], []⟩

/-- Witness for C1: the amended theorem applied to the concrete batch. -/
theorem process_all_data_latest_wins_witness :
    validOf w1State ≠ [] ∧
    (∃ latest ld elems aggs s2,
      find_latest_file (validOf w1State) = .ok (some latest) ∧
      latest ∈ validOf w1State ∧
      extract_timestamp latest.name = .ok ld ∧
      (∀ f ∈ validOf w1State, ∀ d, extract_timestamp f.name = .ok d → dtKey d ≤ dtKey ld) ∧
      latest.content = some (.arr elems) ∧
      aggregate_by_state elems = .ok aggs ∧
      process_all_data w1State 9 = (true, s2) ∧
      s2.db = (update_database aggs latest.name 9 w1State.db).2 ∧
      s2.staging = w1State.staging.filter (fun f => !isDemographicFilename f.name) ∧
      s2.processed = w1State.processed ++ validOf w1State ∧
      s2.errorDir = w1State.errorDir ++ errOf w1State) :=
  ⟨by decide,
   (process_all_data_latest_wins w1State 9 (by decide) (by decide) (by decide)).2 (by decide)⟩

/-- A staged file whose name passes discovery and whose content is valid,
but whose 8-digit date group is not a calendar date (month 13, day 99). -/
def cexMonth13 : PState :=
  ⟨[⟨"demographic_data_20261399_000000.json", some (.arr [])⟩], [], [], [], []⟩

/-- A staged valid file (its first five elements are well-formed) whose
sixth element is a bare string, which makes the aggregation raise. -/
def cexBadSixth : PState :=
  ⟨[⟨"demographic_data_20260101_000000.json",
      some (.arr [.obj [("attributes", .obj [("STATE_NAME", .str "A"), ("POPULATION", .num 1)])],
                  .obj [("attributes", .obj [("STATE_NAME", .str "A"), ("POPULATION", .num 1)])],
                  .obj [("attributes", .obj [("STATE_NAME", .str "A"), ("POPULATION", .num 1)])],
                  .obj [("attributes", .obj [("STATE_NAME", .str "A"), ("POPULATION", .num 1)])],
                  .obj [("attributes", .obj [("STATE_NAME", .str "A"), ("POPULATION", .num 1)])],
                  .str "junk"])⟩], [], [], [], []⟩

/-- Counterexample for C1 as stated: in both batches the single staged file
is discovered and passes validation, yet the cycle returns false and leaves
the valid file in staging, archiving nothing — in the first batch because
the embedded timestamp is not a calendar date and the timestamp extraction
raises inside file selection, in the second because the sixth element makes
the aggregation raise; both exceptions are caught at the cycle boundary. -/
theorem process_all_data_cex :
    isDemographicFilename "demographic_data_20261399_000000.json" = true ∧
    validate_json_file (some (.arr [])) = true ∧
    (process_all_data cexMonth13 0).1 = false ∧
    (process_all_data cexMonth13 0).2.staging = cexMonth13.staging ∧
    (process_all_data cexMonth13 0).2.processed = [] ∧
    validate_json_file
      (some (.arr [.obj [("attributes", .obj [("STATE_NAME", .str "A"), ("POPULATION", .num 1)])],
                   .obj [("attributes", .obj [("STATE_NAME", .str "A"), ("POPULATION", .num 1)])],
                   .obj [("attributes", .obj [("STATE_NAME", .str "A"), ("POPULATION", .num 1)])],
                   .obj [("attributes", .obj [("STATE_NAME", .str "A"), ("POPULATION", .num 1)])],
                   .obj [("attributes", .obj [("STATE_NAME", .str "A"), ("POPULATION", .num 1)])],
                   .str "junk"])) = true ∧
    (process_all_data cexBadSixth 0).1 = false ∧
    (process_all_data cexBadSixth 0).2.staging = cexBadSixth.staging ∧
    (process_all_data cexBadSixth 0).2.processed = [] := by
  decide

/-- C10. A file whose contents are an empty top-level JSON array passes
`validate_json_file`; when such a file is the batch's selected latest valid
file, the cycle aggregates it to the empty mapping, `update_database`
writes 0 rows leaving every existing store row unchanged, and the cycle
still reports success while archiving the whole batch. -/
theorem empty_array_latest_cycle (s : PState) (now : Nat) (latest : PFile)
    (hnd : (s.staging.map PFile.name).Nodup)
    (hvne : validOf s ≠ [])
    (hlatest : find_latest_file (validOf s) = .ok (some latest))
    (hempty : latest.content = some (.arr [])) :
    validate_json_file (some (.arr [])) = true ∧
    aggregate_by_state [] = .ok [] ∧
    update_database [] latest.name now s.db = (0, s.db) ∧
    ∃ s2, process_all_data s now = (true, s2) ∧ s2.db = s.db ∧
      s2.staging = s.staging.filter (fun f => !isDemographicFilename f.name) ∧
      s2.processed = s.processed ++ validOf s ∧
      s2.errorDir = s.errorDir ++ errOf s := by
  refine ⟨by decide, rfl, rfl, ?_⟩
  obtain ⟨s2, h1, h2, h3, h4, h5⟩ :=
    processBody_success s now hnd hvne latest [] [] hlatest hempty rfl
  refine ⟨s2, h1, ?_, h2, h3, h4⟩
  rw [h5]
  rfl

/-- Concrete batch for the C10 witness: the latest valid file holds an empty
array; an older valid file holds data; the store already has a row. -/
def w10State : PState :=
  ⟨[⟨"demographic_data_20260124_153045.json", some (.arr [])⟩,
    ⟨"demographic_data_20260101_000000.json",
      some (.arr [.obj [("attributes",
        .obj [("STATE_NAME", .str "Texas"), ("POPULATION", .num 500000)])]])⟩],
   [], [], [(.str "Ohio", ⟨9, 1, "old.json"⟩)], []⟩

/-- Witness for C10: the theorem applied to the concrete batch. -/
theorem empty_array_latest_cycle_witness :
    validate_json_file (some (.arr [])) = true ∧
    ∃ s2, process_all_data w10State 4 = (true, s2) ∧ s2.db = w10State.db ∧
      s2.staging = w10State.staging.filter (fun f => !isDemographicFilename f.name) ∧
      s2.processed = w10State.processed ++ validOf w10State ∧
      s2.errorDir = w10State.errorDir ++ errOf w10State :=
  have h := empty_array_latest_cycle w10State 4
    ⟨"demographic_data_20260124_153045.json", some (.arr [])⟩
    (by decide) (by decide) (by decide) (by decide)
  ⟨h.1, h.2.2.2⟩

end Demographics
